import Mathlib

/-!
Verification development for the catprinter webhook server
(webhook_printer_server.py). The definitions below are a shallow embedding
of the poll/filter/dedup/advance engine and its helpers; machine-level
concerns (subprocesses, sockets, files) are modelled by their observable
effects (sink-call traces, watermark saves).

Conventions of the embedding:
* Python strings coming out of json.loads are sequences of unicode code
  points (lists of Nat), because the scanner can produce lone
  surrogates, which Lean characters cannot carry.  Strings fed to the
  datetime parsers are Lean strings: a timestamp string containing a
  code point outside the scalar range can never parse (see pwtJ).
  Slicing and searching helpers mirror Python semantics (negative
  indices, find/rindex, endswith, replace).
* JSON values are the inductive JVal; json.loads is an executable
  recursive-descent parser over the json grammar.  Integer tokens give
  Python ints; fraction/exponent tokens and the NaN/Infinity constants
  give Python floats (PyFloat), a finite one carried as the exact
  rational value of its token (see floatBool for where the IEEE
  rounding matters).
* datetime instants are integers: microseconds since 1970-01-01 UTC,
  obtained from civil fields by the standard days-from-civil algorithm;
  the conversion to utc models the OverflowError that astimezone raises
  when the result leaves the representable range (years 1 to 9999).
* A value raised as an uncaught Python exception is modelled as the
  Option value none at the point where the source lets it escape.
* The engine is modelled with the --debug flag off: debug mode adds
  prints of raw data that can themselves raise.
-/

namespace WebhookPrinter

/-- Python slice l[:k] on a list of characters: a negative k counts from
the end of the list, clamping at zero; k past the end keeps everything. -/
def pySliceTo (l : List Char) (k : Int) : List Char :=
  if k < 0 then l.take ((l.length : Int) + k).toNat else l.take k.toNat

/-- Truncation policy of print_message (webhook_printer_server.py lines
57-63): if max_length > 0 and the message is longer than max_length, keep
message[:max_length - 3] and append the three-character ellipsis. -/
def prepare (s : String) (maxLen : Int) : String :=
  if maxLen > 0 ∧ (s.length : Int) > maxLen then
    String.mk (pySliceTo s.data (maxLen - 3)) ++ "..."
  else s

theorem string_length_mk (l : List Char) : (String.mk l).length = l.length := rfl

/-- Claim C4 (counterexample): at max_length = 1 the message "ab" is
truncated (the result differs from the input), but the result is "...":
its length is 3, not max_length = 1, because the Python slice
"ab"[:1-3] is empty rather than "the first max_length - 3 characters". -/
theorem prepare_c4_counterexample :
    prepare "ab" 1 = "..." ∧ prepare "ab" 1 ≠ "ab" ∧
    ((prepare "ab" 1).length : Int) ≠ 1 := by
  refine ⟨rfl, ?_, ?_⟩ <;> decide

/-- Claim C4 (amended): prepare returns the text unchanged when
max_length ≤ 0 or len(text) ≤ max_length; when truncation occurs and in
addition max_length ≥ 3, the result is the first max_length - 3
characters of the text followed by "..." and has length exactly
max_length.  (For 0 < max_length < 3 truncation still occurs but the
Python negative slice makes the result longer than max_length.) -/
theorem prepare_spec (s : String) (n : Int) :
    (n ≤ 0 → prepare s n = s) ∧
    ((s.length : Int) ≤ n → prepare s n = s) ∧
    (3 ≤ n → n < (s.length : Int) →
      prepare s n = String.mk (s.data.take (n - 3).toNat) ++ "..." ∧
      ((prepare s n).length : Int) = n) := by
  refine ⟨?_, ?_, ?_⟩
  · intro h
    unfold prepare
    rw [if_neg]
    rintro ⟨h1, _⟩
    omega
  · intro h
    unfold prepare
    rw [if_neg]
    rintro ⟨_, h2⟩
    omega
  · intro h3 hlen
    have hcond : n > 0 ∧ (s.length : Int) > n := by constructor <;> omega
    have hslice : pySliceTo s.data (n - 3) = s.data.take (n - 3).toNat := by
      unfold pySliceTo
      rw [if_neg]
      omega
    constructor
    · unfold prepare
      rw [if_pos hcond, hslice]
    · unfold prepare
      rw [if_pos hcond, hslice]
      have hdata : (s.data.length : Int) = (s.length : Int) := rfl
      have htake : (s.data.take (n - 3).toNat).length = (n - 3).toNat := by
        rw [List.length_take]
        have : (n - 3).toNat ≤ s.data.length := by omega
        omega
      rw [String.length_append, string_length_mk, htake]
      have h34 : (("..." : String).length) = 3 := rfl
      rw [h34]
      omega

/-- Claim C4 (witness for the amended theorem): the three branches at
concrete inputs: disabled policy, short text, and a real truncation of a
ten-character text at max_length 5 giving "ab..." of length 5. -/
theorem prepare_spec_witness :
    prepare "abcdefghij" (-2) = "abcdefghij" ∧
    prepare "abc" 7 = "abc" ∧
    (prepare "abcdefghij" 5 =
        String.mk (("abcdefghij" : String).data.take ((5 : Int) - 3).toNat) ++ "..." ∧
      ((prepare "abcdefghij" 5).length : Int) = 5) :=
  ⟨(prepare_spec "abcdefghij" (-2)).1 (by decide),
   (prepare_spec "abc" 7).2.1 (by decide),
   (prepare_spec "abcdefghij" 5).2.2 (by decide) (by decide)⟩

/-! ### Calendar arithmetic and the datetime model

A parsed datetime is its civil fields plus an optional fixed utc offset
(tz, in microseconds).  Instants are integers: microseconds since
1970-01-01T00:00:00 UTC, computed with the standard days-from-civil
algorithm.  astimezone(timezone.utc) preserves the instant; on a naive
datetime Python applies the system local offset, which we keep abstract
as the parameter localOff (also microseconds). -/

def isLeap (y : Nat) : Bool :=
  (y % 4 = 0 ∧ y % 100 ≠ 0) ∨ y % 400 = 0

def daysInMonth (y m : Nat) : Nat :=
  if m = 2 then (if isLeap y then 29 else 28)
  else if m = 4 ∨ m = 6 ∨ m = 9 ∨ m = 11 then 30
  else 31

/-- Days from 1970-01-01 to year y, month m, day d (valid for y ≥ 1,
1 ≤ m ≤ 12); the classical era-based civil-calendar formula. -/
def daysFromCivil (y m d : Nat) : Int :=
  let yy := if m ≤ 2 then y - 1 else y
  let era := yy / 400
  let yoe := yy % 400
  let mp := if m ≤ 2 then m + 9 else m - 3
  let doy := (153 * mp + 2) / 5 + d - 1
  let doe := yoe * 365 + yoe / 4 - yoe / 100 + doy
  ((era * 146097 + doe : Nat) : Int) - 719468

/-- Microseconds since the Unix epoch of the given civil UTC fields. -/
def toMicros (y mo d h mi s us : Nat) : Int :=
  daysFromCivil y mo d * 86400000000 +
    ((h * 3600 + mi * 60 + s : Nat) : Int) * 1000000 + (us : Int)

/-- A Python datetime value: civil fields and an optional fixed utc
offset in microseconds (none = naive). -/
structure PyDT where
  year : Nat
  month : Nat
  day : Nat
  hour : Nat
  minute : Nat
  second : Nat
  micro : Nat
  tz : Option Int

def naiveMicros (dt : PyDT) : Int :=
  toMicros dt.year dt.month dt.day dt.hour dt.minute dt.second dt.micro

/-- The representable datetime range: datetime.min is
0001-01-01T00:00:00 and datetime.max is 9999-12-31T23:59:59.999999. -/
def minInstant : Int := toMicros 1 1 1 0 0 0 0

def maxInstant : Int := toMicros 9999 12 31 23 59 59 999999

/-- The UTC instant of dt.astimezone(timezone.utc): aware datetimes
subtract their own offset, naive ones the system local offset.  The
subtraction raises OverflowError (none here) when the result leaves the
representable datetime range.  (CPython returns self without any
subtraction when the source timezone is the utc singleton, i.e. offset
zero; the value is then the naive instant, which is inside the range
for every constructor-validated datetime, so the uniform guard below is
equivalent.) -/
def utcInstant (localOff : Int) (dt : PyDT) : Option Int :=
  if minInstant ≤ naiveMicros dt - dt.tz.getD localOff ∧
      naiveMicros dt - dt.tz.getD localOff ≤ maxInstant then
    some (naiveMicros dt - dt.tz.getD localOff)
  else none

/-! ### datetime.fromisoformat (Python ≤ 3.10 grammar)

Mirrors the CPython pure-Python implementation: the first ten characters
must be YYYY-MM-DD; character 10 (any separator) is skipped; the rest is
HH[:MM[:SS[.fff[fff]]]] with an optional offset +HH:MM[:SS[.ffffff]] or
-HH:MM[:SS[.ffffff]]; the datetime constructor then validates ranges and
the timezone offset must be strictly below 24 hours in magnitude. -/

def chDig (c : Char) : Option Nat :=
  if c.isDigit then some (c.toNat - 48) else none

def parseIsoDate (l : List Char) : Option (Nat × Nat × Nat) :=
  match l with
  | [y1, y2, y3, y4, s1, m1, m2, s2, d1, d2] =>
    if s1 = '-' ∧ s2 = '-' then do
      let a ← chDig y1
      let b ← chDig y2
      let c ← chDig y3
      let d ← chDig y4
      let e ← chDig m1
      let f ← chDig m2
      let g ← chDig d1
      let h ← chDig d2
      pure (1000 * a + 100 * b + 10 * c + d, 10 * e + f, 10 * g + h)
    else none
  | _ => none

/-- CPython _parse_hh_mm_ss_ff: two-digit components separated by
mandatory colons, with an optional 3- or 6-digit fraction after the
seconds; returns (hours, minutes, seconds, microseconds). -/
def parseHMSF (l : List Char) : Option (Nat × Nat × Nat × Nat) :=
  match l with
  | a :: b :: rest => do
    let h ← do
      let x ← chDig a
      let y ← chDig b
      pure (10 * x + y)
    match rest with
    | [] => pure (h, 0, 0, 0)
    | ':' :: r1 =>
      match r1 with
      | c :: d :: rest2 => do
        let m ← do
          let x ← chDig c
          let y ← chDig d
          pure (10 * x + y)
        match rest2 with
        | [] => pure (h, m, 0, 0)
        | ':' :: r2 =>
          match r2 with
          | e :: f :: rest3 => do
            let s ← do
              let x ← chDig e
              let y ← chDig f
              pure (10 * x + y)
            match rest3 with
            | [] => pure (h, m, s, 0)
            | '.' :: fr =>
              match fr with
              | [u1, u2, u3] => do
                let x ← chDig u1
                let y ← chDig u2
                let z ← chDig u3
                pure (h, m, s, (100 * x + 10 * y + z) * 1000)
              | [u1, u2, u3, u4, u5, u6] => do
                let x1 ← chDig u1
                let x2 ← chDig u2
                let x3 ← chDig u3
                let x4 ← chDig u4
                let x5 ← chDig u5
                let x6 ← chDig u6
                pure (h, m, s,
                  100000 * x1 + 10000 * x2 + 1000 * x3 + 100 * x4 + 10 * x5 + x6)
              | _ => none
            | _ => none
          | _ => none
        | _ => none
      | _ => none
    | _ => none
  | _ => none

def firstIdxOf : List Char → Char → Option Nat
  | [], _ => none
  | x :: xs, c => if x = c then some 0 else (firstIdxOf xs c).map (· + 1)

def lastIdxOf : List Char → Char → Option Nat
  | [], _ => none
  | x :: xs, c =>
    match lastIdxOf xs c with
    | some i => some (i + 1)
    | none => if x = c then some 0 else none

/-- CPython _parse_isoformat_time: the timezone starts right after the
first '-' (or, failing that, the first '+'); the timezone text must have
length 5, 8 or 15 and the resulting offset magnitude must be strictly
below 24 hours. -/
def parseIsoTime (tstr : List Char) :
    Option (Nat × Nat × Nat × Nat × Option Int) := do
  let tzPos : Nat :=
    match firstIdxOf tstr '-' with
    | some i => i + 1
    | none =>
      match firstIdxOf tstr '+' with
      | some j => j + 1
      | none => 0
  let timestr := if tzPos > 0 then tstr.take (tzPos - 1) else tstr
  let (h, m, s, f) ← parseHMSF timestr
  if tzPos > 0 then
    let tzstr := tstr.drop tzPos
    if tzstr.length = 5 ∨ tzstr.length = 8 ∨ tzstr.length = 15 then do
      let (th, tm, ts, tf) ← parseHMSF tzstr
      if (th * 3600 + tm * 60 + ts) * 1000000 + tf < 86400000000 then
        let sign : Int := if tstr[tzPos - 1]? = some '-' then -1 else 1
        pure (h, m, s, f,
          some (sign * (((th * 3600 + tm * 60 + ts) * 1000000 + tf : Nat) : Int)))
      else none
    else none
  else
    pure (h, m, s, f, none)

/-- datetime.fromisoformat on a character list, including the range
checks performed by the datetime constructor. -/
def fromiso (l : List Char) : Option PyDT := do
  let (y, mo, d) ← parseIsoDate (l.take 10)
  let tstr := l.drop 11
  let (h, mi, s, us, tz) ←
    if tstr.isEmpty then pure (0, 0, 0, 0, (none : Option Int))
    else parseIsoTime tstr
  if 1 ≤ y ∧ y ≤ 9999 ∧ 1 ≤ mo ∧ mo ≤ 12 ∧ 1 ≤ d ∧ d ≤ daysInMonth y mo ∧
      h ≤ 23 ∧ mi ≤ 59 ∧ s ≤ 59 then
    pure ⟨y, mo, d, h, mi, s, us, tz⟩
  else none

/-! ### strptime with format "%Y-%m-%d %H:%M:%S"

Mirrors the CPython TimeRE character classes: %Y is four digits, %m is
1[0-2]|0[1-9]|[1-9], %d is 3[01]|[12][0-9]|0[1-9]|[1-9], %H is
2[0-3]|[0-1][0-9]|[0-9], %M and %S are [0-5][0-9]|[0-9]; the whole
string must be consumed and the datetime constructor validates the day
against the month. -/

def parseMonthR : List Char → Option (Nat × List Char)
  | c1 :: c2 :: rest =>
    if c1 = '1' ∧ ('0' ≤ c2 ∧ c2 ≤ '2') then some (10 + (c2.toNat - 48), rest)
    else if c1 = '0' ∧ ('1' ≤ c2 ∧ c2 ≤ '9') then some (c2.toNat - 48, rest)
    else if '1' ≤ c1 ∧ c1 ≤ '9' then some (c1.toNat - 48, c2 :: rest)
    else none
  | [c1] =>
    if '1' ≤ c1 ∧ c1 ≤ '9' then some (c1.toNat - 48, []) else none
  | [] => none

def parseDayR : List Char → Option (Nat × List Char)
  | c1 :: c2 :: rest =>
    if c1 = '3' ∧ (c2 = '0' ∨ c2 = '1') then some (30 + (c2.toNat - 48), rest)
    else if (c1 = '1' ∨ c1 = '2') ∧ c2.isDigit then
      some ((c1.toNat - 48) * 10 + (c2.toNat - 48), rest)
    else if c1 = '0' ∧ ('1' ≤ c2 ∧ c2 ≤ '9') then some (c2.toNat - 48, rest)
    else if '1' ≤ c1 ∧ c1 ≤ '9' then some (c1.toNat - 48, c2 :: rest)
    else none
  | [c1] =>
    if '1' ≤ c1 ∧ c1 ≤ '9' then some (c1.toNat - 48, []) else none
  | [] => none

def parseHourR : List Char → Option (Nat × List Char)
  | c1 :: c2 :: rest =>
    if c1 = '2' ∧ ('0' ≤ c2 ∧ c2 ≤ '3') then some (20 + (c2.toNat - 48), rest)
    else if (c1 = '0' ∨ c1 = '1') ∧ c2.isDigit then
      some ((c1.toNat - 48) * 10 + (c2.toNat - 48), rest)
    else if c1.isDigit then some (c1.toNat - 48, c2 :: rest)
    else none
  | [c1] => if c1.isDigit then some (c1.toNat - 48, []) else none
  | [] => none

def parseMinSecR : List Char → Option (Nat × List Char)
  | c1 :: c2 :: rest =>
    if ('0' ≤ c1 ∧ c1 ≤ '5') ∧ c2.isDigit then
      some ((c1.toNat - 48) * 10 + (c2.toNat - 48), rest)
    else if c1.isDigit then some (c1.toNat - 48, c2 :: rest)
    else none
  | [c1] => if c1.isDigit then some (c1.toNat - 48, []) else none
  | [] => none

def strptimeYmdHMS (l : List Char) : Option PyDT :=
  match l with
  | y1 :: y2 :: y3 :: y4 :: rest => do
    let a ← chDig y1
    let b ← chDig y2
    let c ← chDig y3
    let d ← chDig y4
    let y := 1000 * a + 100 * b + 10 * c + d
    match rest with
    | '-' :: r1 => do
      let (mo, r2) ← parseMonthR r1
      match r2 with
      | '-' :: r3 => do
        let (dy, r4) ← parseDayR r3
        match r4 with
        | ' ' :: r5 => do
          let (h, r6) ← parseHourR r5
          match r6 with
          | ':' :: r7 => do
            let (mi, r8) ← parseMinSecR r7
            match r8 with
            | ':' :: r9 => do
              let (s, r10) ← parseMinSecR r9
              if r10 = [] ∧ 1 ≤ y ∧ 1 ≤ dy ∧ dy ≤ daysInMonth y mo then
                pure ⟨y, mo, dy, h, mi, s, 0, none⟩
              else none
            | _ => none
          | _ => none
        | _ => none
      | _ => none
    | _ => none
  | _ => none

/-! ### parse_webhook_timestamp (webhook_printer_server.py lines 112-150) -/

/-- Python str.replace applied to the single-character pattern 'Z' with
replacement "+00:00" (replaces every occurrence). -/
def pyReplaceZ (l : List Char) : List Char :=
  l.flatMap (fun c => if c = 'Z' then ['+', '0', '0', ':', '0', '0'] else [c])

/-- The sentinel datetime(2000, 1, 1, tzinfo=timezone.utc) returned on
any parse failure, as an instant. -/
def sentinel2000 : Int := toMicros 2000 1 1 0 0 0 0

/-- The try block of parse_webhook_timestamp (lines 121-144): branch on
'T', a trailing 'Z', and explicit offset information ('+' present, or
'-' present with rindex past position 10); none models an exception
escaping the selected stdlib parser. -/
def pwtTry (localOff : Int) (s : String) : Option Int :=
  let l := s.data
  if 'T' ∈ l then
    if l.getLast? = some 'Z' then
      (fromiso (pyReplaceZ l)).bind (utcInstant localOff)
    else if '+' ∈ l ∨ ('-' ∈ l ∧ (lastIdxOf l '-').getD 0 > 10) then
      (fromiso l).bind (utcInstant localOff)
    else
      (fromiso l).bind (fun dt => utcInstant localOff { dt with tz := some 0 })
  else
    (strptimeYmdHMS l).bind (fun dt => utcInstant localOff { dt with tz := some 0 })

/-- parse_webhook_timestamp: the try block with the catch-all except
returning the year-2000 sentinel. -/
def parse_webhook_timestamp (localOff : Int) (s : String) : Int :=
  (pwtTry localOff s).getD sentinel2000

/-- A Python float as json.loads produces one; finite m e denotes the
exact token value m times 10 to the e. -/
inductive PyFloat where
  | finite (m : Int) (e : Int)
  | inf
  | negInf
  | nan

inductive JVal where
  | null
  | bool (b : Bool)
  | num (n : Int)
  | fnum (x : PyFloat)
  | str (cp : List Nat)
  | arr (elems : List JVal)
  | obj (fields : List (List Nat × JVal))

/-- The code points of a Lean string literal. -/
def cps (s : String) : List Nat := s.data.map Char.toNat

/-- The JVal string of a Lean string literal. -/
def js (s : String) : JVal := .str (cps s)

def jsonWS (n : Nat) : Bool := n = 32 ∨ n = 9 ∨ n = 10 ∨ n = 13

def skipWs : List Nat → List Nat
  | [] => []
  | c :: r => if jsonWS c then skipWs r else c :: r

def hexDig (n : Nat) : Option Nat :=
  if 48 ≤ n ∧ n ≤ 57 then some (n - 48)
  else if 97 ≤ n ∧ n ≤ 102 then some (n - 87)
  else if 65 ≤ n ∧ n ≤ 70 then some (n - 55)
  else none

/-- JSON string body after the opening quote (code point 34): returns
the decoded code points and the remaining input after the closing
quote.  A high-surrogate escape followed by a low-surrogate escape
combines into one code point; an unpaired surrogate escape stays as a
lone surrogate code point, as in the CPython scanner (which, after a
high surrogate, insists on valid hex in an immediately following \\u
escape — on bad hex both it and the reparse here fail).  Unescaped
control characters below code point 32 are rejected (strict mode).
The first argument is fuel: every recursive call strictly shortens the
input, so any fuel above the input length is never exhausted. -/
def parseJStr : Nat → List Nat → Option (List Nat × List Nat)
  | 0, _ => none
  | _, [] => none
  | fuel + 1, c :: rest =>
    if c = 34 then some ([], rest)
    else if c = 92 then
      match rest with
      | [] => none
      | e :: rest2 =>
        if e = 34 then (parseJStr fuel rest2).map (fun p => (34 :: p.1, p.2))
        else if e = 92 then (parseJStr fuel rest2).map (fun p => (92 :: p.1, p.2))
        else if e = 47 then (parseJStr fuel rest2).map (fun p => (47 :: p.1, p.2))
        else if e = 98 then (parseJStr fuel rest2).map (fun p => (8 :: p.1, p.2))
        else if e = 102 then (parseJStr fuel rest2).map (fun p => (12 :: p.1, p.2))
        else if e = 110 then (parseJStr fuel rest2).map (fun p => (10 :: p.1, p.2))
        else if e = 114 then (parseJStr fuel rest2).map (fun p => (13 :: p.1, p.2))
        else if e = 116 then (parseJStr fuel rest2).map (fun p => (9 :: p.1, p.2))
        else if e = 117 then
          match rest2 with
          | h1 :: h2 :: h3 :: h4 :: rest3 =>
            match hexDig h1, hexDig h2, hexDig h3, hexDig h4 with
            | some a, some b, some cc, some d =>
              let v := 4096 * a + 256 * b + 16 * cc + d
              if 55296 ≤ v ∧ v ≤ 56319 then
                match rest3 with
                | 92 :: 117 :: g1 :: g2 :: g3 :: g4 :: rest4 =>
                  match hexDig g1, hexDig g2, hexDig g3, hexDig g4 with
                  | some a2, some b2, some c2, some d2 =>
                    let w := 4096 * a2 + 256 * b2 + 16 * c2 + d2
                    if 56320 ≤ w ∧ w ≤ 57343 then
                      (parseJStr fuel rest4).map (fun p =>
                        ((65536 + (v - 55296) * 1024 + (w - 56320)) :: p.1, p.2))
                    else
                      (parseJStr fuel (92 :: 117 :: g1 :: g2 :: g3 :: g4 :: rest4)).map
                        (fun p => (v :: p.1, p.2))
                  | _, _, _, _ =>
                    (parseJStr fuel rest3).map (fun p => (v :: p.1, p.2))
                | _ => (parseJStr fuel rest3).map (fun p => (v :: p.1, p.2))
              else (parseJStr fuel rest3).map (fun p => (v :: p.1, p.2))
            | _, _, _, _ => none
          | _ => none
        else none
    else if c < 32 then none
    else (parseJStr fuel rest).map (fun p => (c :: p.1, p.2))

def isDigCp (n : Nat) : Bool := 48 ≤ n ∧ n ≤ 57

def digitsTake : List Nat → (List Nat × List Nat)
  | [] => ([], [])
  | c :: r =>
    if isDigCp c then
      let p := digitsTake r
      (c :: p.1, p.2)
    else ([], c :: r)

def digitsVal (ds : List Nat) : Nat :=
  ds.foldl (fun a c => 10 * a + (c - 48)) 0

/-- JSON number token, as the scanner regex of the json module matches
it: an optional minus, an integer part, an optional fraction, an
optional exponent.  A pure integer token gives a Python int; a token
with a fraction or exponent gives a float, carried as the exact
rational value of the token (the value the rounding to the nearest
double is applied to).  A malformed fraction or exponent is simply not
part of the token, exactly as with the regex; a superfluous leading
zero ends the Python token right after the zero and the leftover digit
then makes the caller fail, so the whole parse fails either way, which
the leading-zero test below short-circuits. -/
def parseJNum (l : List Nat) : Option (JVal × List Nat) :=
  let sl : Bool × List Nat :=
    match l with
    | c :: r => if c = 45 then (true, r) else (false, l)
    | [] => (false, l)
  match digitsTake sl.2 with
  | ([], _) => none
  | (ds, rest) =>
    if ds.length > 1 ∧ ds.head? = some 48 then none
    else
      let fr : List Nat × List Nat :=
        match rest with
        | 46 :: r2 =>
          match digitsTake r2 with
          | ([], _) => ([], rest)
          | (fds, r3) => (fds, r3)
        | _ => ([], rest)
      let ex : Option Int × List Nat :=
        match fr.2 with
        | e :: r4 =>
          if e = 101 ∨ e = 69 then
            match r4 with
            | 43 :: r5 =>
              match digitsTake r5 with
              | ([], _) => (none, fr.2)
              | (eds, r6) => (some ((digitsVal eds : Nat) : Int), r6)
            | 45 :: r5 =>
              match digitsTake r5 with
              | ([], _) => (none, fr.2)
              | (eds, r6) => (some (-((digitsVal eds : Nat) : Int)), r6)
            | _ =>
              match digitsTake r4 with
              | ([], _) => (none, fr.2)
              | (eds, r6) => (some ((digitsVal eds : Nat) : Int), r6)
          else (none, fr.2)
        | [] => (none, fr.2)
      if fr.1 = [] ∧ ex.1 = none then
        some (.num (if sl.1 then -(digitsVal ds : Int) else (digitsVal ds : Int)),
          fr.2)
      else
        let mant : Nat := digitsVal (ds ++ fr.1)
        some (.fnum (.finite
          (if sl.1 then -(mant : Int) else (mant : Int))
          (ex.1.getD 0 - fr.1.length)), ex.2)

/-- Python dict assignment: replace the value of an existing key
in place, otherwise append the new pair. -/
def objInsert : List (List Nat × JVal) → List Nat → JVal → List (List Nat × JVal)
  | [], k, v => [(k, v)]
  | (k', v') :: rest, k, v =>
    if k' = k then (k', v) :: rest else (k', v') :: objInsert rest k v

mutual

def parseJVal : Nat → List Nat → Option (JVal × List Nat)
  | 0, _ => none
  | fuel + 1, l =>
    match skipWs l with
    | [] => none
    | c :: r =>
      if c = 123 then
        match skipWs r with
        | c2 :: r2 =>
          if c2 = 125 then some (.obj [], r2)
          else parseJMembers fuel (c2 :: r2) []
        | [] => none
      else if c = 91 then
        match skipWs r with
        | c2 :: r2 =>
          if c2 = 93 then some (.arr [], r2)
          else parseJElems fuel (c2 :: r2) []
        | [] => none
      else if c = 34 then
        (parseJStr (r.length + 1) r).map (fun p => (.str p.1, p.2))
      else if c = 116 then
        match r with
        | 114 :: 117 :: 101 :: rest => some (.bool true, rest)
        | _ => none
      else if c = 102 then
        match r with
        | 97 :: 108 :: 115 :: 101 :: rest => some (.bool false, rest)
        | _ => none
      else if c = 110 then
        match r with
        | 117 :: 108 :: 108 :: rest => some (.null, rest)
        | _ => none
      else if c = 78 then
        match r with
        | 97 :: 78 :: rest => some (.fnum .nan, rest)
        | _ => none
      else if c = 73 then
        match r with
        | 110 :: 102 :: 105 :: 110 :: 105 :: 116 :: 121 :: rest =>
          some (.fnum .inf, rest)
        | _ => none
      else if c = 45 then
        match r with
        | 73 :: 110 :: 102 :: 105 :: 110 :: 105 :: 116 :: 121 :: rest =>
          some (.fnum .negInf, rest)
        | _ => parseJNum (c :: r)
      else parseJNum (c :: r)

def parseJMembers : Nat → List Nat → List (List Nat × JVal) →
    Option (JVal × List Nat)
  | 0, _, _ => none
  | fuel + 1, l, acc =>
    match skipWs l with
    | c :: r =>
      if c = 34 then
        match parseJStr (r.length + 1) r with
        | none => none
        | some (k, r2) =>
          match skipWs r2 with
          | 58 :: r3 =>
            match parseJVal fuel r3 with
            | none => none
            | some (v, r4) =>
              let acc2 := objInsert acc k v
              match skipWs r4 with
              | 44 :: r5 => parseJMembers fuel r5 acc2
              | c2 :: r5 => if c2 = 125 then some (.obj acc2, r5) else none
              | [] => none
          | _ => none
      else none
    | [] => none

def parseJElems : Nat → List Nat → List JVal → Option (JVal × List Nat)
  | 0, _, _ => none
  | fuel + 1, l, acc =>
    match parseJVal fuel l with
    | none => none
    | some (v, r) =>
      match skipWs r with
      | 44 :: r2 => parseJElems fuel r2 (acc ++ [v])
      | 93 :: r2 => some (.arr (acc ++ [v]), r2)
      | _ => none

end

/-- json.loads: parse one value and require only whitespace after it. -/
def json_loads (l : List Nat) : Option JVal :=
  match parseJVal (2 * l.length + 2) l with
  | some (v, rest) => if skipWs rest = [] then some v else none
  | none => none

/-! ### Event classification and payload extraction -/

/-- Truthiness of a finite Python float parsed from a decimal token:
the stored double is falsy exactly when it is plus or minus 0.0, i.e.
when the exact token value m times 10 to the e rounds to zero.  With
round-to-nearest, ties-to-even, that happens exactly for magnitudes up
to 2^(-1075), the halfway point below the smallest subnormal
2^(-1074); for e < 0 the comparison |m| / 10^(-e) > 2^(-1075) is the
integer comparison below.  NaN and the infinities are truthy. -/
def floatBool : PyFloat → Bool
  | .finite m e =>
    if m = 0 then false
    else if 0 ≤ e then true
    else decide ((10 : Nat) ^ (-e).toNat < m.natAbs * 2 ^ 1075)
  | _ => true

/-- Python truthiness of a JSON value. -/
def jtruthy : JVal → Bool
  | .null => false
  | .bool b => b
  | .num n => n != 0
  | .fnum x => floatBool x
  | .str cp => !cp.isEmpty
  | .arr xs => !xs.isEmpty
  | .obj fs => !fs.isEmpty

def jIsObj : JVal → Bool
  | .obj _ => true
  | _ => false

/-- Python str.upper of one code point, as far as the comparison with
the ASCII literal POST can observe it.  The listed code points (a-z,
U+00DF sharp s, U+0131 dotless i, U+017F long s, and the Latin
ligatures U+FB00 to U+FB06) are exactly the ones whose full unicode
uppercase consists of ASCII characters; every other code point maps
under str.upper either to itself or to a sequence containing a
non-ASCII character, so keeping it unchanged preserves the verdict of
the comparison against an all-ASCII literal for every string. -/
def upperCp (n : Nat) : List Nat :=
  if 97 ≤ n ∧ n ≤ 122 then [n - 32]
  else if n = 223 then [83, 83]
  else if n = 305 then [73]
  else if n = 383 then [83]
  else if n = 64256 then [70, 70]
  else if n = 64257 then [70, 73]
  else if n = 64258 then [70, 76]
  else if n = 64259 then [70, 70, 73]
  else if n = 64260 then [70, 70, 76]
  else if n = 64261 then [83, 84]
  else if n = 64262 then [83, 84]
  else [n]

/-- Python str.upper over the code points of a string. -/
def pyUpper (l : List Nat) : List Nat := l.flatMap upperCp

/-- dict.get(k): the first matching key (parsed objects have unique
keys). -/
def jget (v : JVal) (k : List Nat) : Option JVal :=
  match v with
  | .obj fs => (fs.find? (fun p => p.1 == k)).map (·.2)
  | _ => none

/-- dict.get(k, d). -/
def jgetD (v : JVal) (k : List Nat) (d : JVal) : JVal :=
  (jget v k).getD d

/-- The body lookup request.get with key "content", defaulting to the
lookup with key "body", defaulting to the empty string. -/
def bodyOf (req : JVal) : JVal :=
  jgetD req (cps "content") (jgetD req (cps "body") (.str []))

/-- The body, json-parsed when it is a string and taken as-is otherwise
(webhook_printer_server.py lines 88-93 and 104-107). -/
def parsedBody (req : JVal) : Option JVal :=
  match bodyOf req with
  | .str l => json_loads l
  | v => some v

/-- is_valid_post_json_message (lines 77-98).  none models the uncaught
AttributeError raised by .upper() when the method value is not a string
(and by .get when the event itself is not a dict); a body parse failure
is caught inside the function and yields false. -/
def is_valid_post_json_message (req : JVal) : Option Bool :=
  match req with
  | .obj _ =>
    match jgetD req (cps "method") (.str []) with
    | .str m =>
      if pyUpper m ≠ cps "POST" then some false
      else if !(jtruthy (bodyOf req)) then some false
      else
        match parsedBody req with
        | some (.obj fs) => some ((jget (.obj fs) (cps "message")).isSome)
        | _ => some false
    | _ => none
  | _ => none

/-- extract_message (lines 100-110): catch-all, so a non-dict request, a
body parse failure or a non-dict parsed body give None; a parsed dict
gives the dict lookup of "message" with the empty string as default. -/
def extract_message (req : JVal) : Option JVal :=
  match req with
  | .obj _ =>
    match parsedBody req with
    | some (.obj fs) => some (jgetD (.obj fs) (cps "message") (.str []))
    | _ => none
  | _ => none

/-- Claim C7 (counterexample): for a request whose body parses to a dict
without a "message" field, extract_message returns the empty string, not
nothing — the Python dict lookup supplies the empty string default. -/
theorem extract_message_c7_counterexample :
    parsedBody (.obj [(cps "content", js "\x7b\x7d")]) = some (.obj []) ∧
    jget (.obj []) (cps "message") = none ∧
    extract_message (.obj [(cps "content", js "\x7b\x7d")]) = some (.str []) ∧
    extract_message (.obj [(cps "content", js "\x7b\x7d")]) ≠ none := by
  refine ⟨rfl, rfl, rfl, ?_⟩
  have h : extract_message (.obj [(cps "content", js "\x7b\x7d")]) =
      some (.str []) := rfl
  rw [h]
  exact Option.some_ne_none _

/-- Claim C7 (amended): extract_message returns the value of the
"message" field when the body parses to a dict containing it; it returns
the empty string (not nothing) when the parsed dict lacks the field; and
it returns nothing when the request is not a dict, when parsing raises,
or when the parsed body is not a dict. -/
theorem extract_message_spec (req : JVal) :
    (jIsObj req = false → extract_message req = none) ∧
    (∀ kvs, req = .obj kvs → parsedBody req = none → extract_message req = none) ∧
    (∀ kvs v, req = .obj kvs → parsedBody req = some v → jIsObj v = false →
      extract_message req = none) ∧
    (∀ kvs fs x, req = .obj kvs → parsedBody req = some (.obj fs) →
      jget (.obj fs) (cps "message") = some x → extract_message req = some x) ∧
    (∀ kvs fs, req = .obj kvs → parsedBody req = some (.obj fs) →
      jget (.obj fs) (cps "message") = none →
      extract_message req = some (.str [])) := by
  refine ⟨?_, ?_, ?_, ?_, ?_⟩
  · intro hobj
    cases req <;> simp [extract_message] <;> simp [jIsObj] at hobj
  · rintro kvs rfl hpb
    simp [extract_message, hpb]
  · rintro kvs v rfl hpb hv
    cases v <;> simp [extract_message, hpb] <;> simp [jIsObj] at hv
  · rintro kvs fs x rfl hpb hx
    simp [extract_message, hpb, jgetD, hx]
  · rintro kvs fs rfl hpb hx
    simp [extract_message, hpb, jgetD, hx]

set_option maxRecDepth 4000 in
/-- Claim C7 (witness cases, five concrete requests): non-dict request,
unparseable body, array body, dict body with a "message", dict body
without one (here carrying a float value under another key, exercising
the float grammar). -/
theorem extract_message_spec_witness :
    extract_message (js "x") = none ∧
    extract_message (.obj [(cps "content", js "not json")]) = none ∧
    extract_message (.obj [(cps "content", js "[1, 2]")]) = none ∧
    extract_message
        (.obj [(cps "content", js "\x7b\x22message\x22:\x22hi\x22\x7d")]) =
      some (js "hi") ∧
    extract_message (.obj [(cps "body", js "\x7b\x22note\x22: 1.5\x7d")]) =
      some (.str []) := by
  refine ⟨(extract_message_spec (js "x")).1 rfl,
    (extract_message_spec _).2.1 _ rfl rfl,
    (extract_message_spec _).2.2.1 _ (.arr [.num 1, .num 2]) rfl rfl rfl,
    (extract_message_spec _).2.2.2.1 _ [(cps "message", js "hi")] (js "hi")
      rfl rfl rfl,
    (extract_message_spec _).2.2.2.2 _
      [(cps "note", .fnum (.finite 15 (-1)))] rfl ?_ rfl⟩
  rfl

/-! ### The poll-loop engine (main, lines 216-268)

One poll iteration processes the fetched request list in order.  Per
request (lines 219-263): skip non-dicts and falsy created_at values;
parse created_at; skip if not strictly newer than the watermark at the
start of the iteration; otherwise track the timestamp into most_recent,
classify, extract, and for a truthy extracted string invoke the sink
(print_message) with the truncation policy, catching sink failures.
An uncaught exception (a non-string method value inside
is_valid_post_json_message; len() applied at line 255 to a truthy
number, float or boolean message; or print(message) at line 256 hitting
a lone surrogate, which no stdout codec encodes) aborts the rest of the
batch and skips the watermark write; the outer handler then keeps the
loop alive.  After a completed batch, the watermark is saved once iff
most_recent advanced (lines 265-268). -/

/-- A valid unicode scalar: a code point a Lean character can carry
(anything a Python str holds except a lone surrogate). -/
def scalarCp (n : Nat) : Bool := n < 55296 ∨ (57343 < n ∧ n < 1114112)

/-- The code points as a Lean string, when every one is a valid
scalar. -/
def cpsString? (l : List Nat) : Option String :=
  if l.all scalarCp then some (String.mk (l.map Char.ofNat)) else none

/-- parse_webhook_timestamp applied to whatever JSON value sits in
created_at: every non-string value raises a TypeError inside the try
block and so yields the sentinel.  A string containing a lone surrogate
also yields the sentinel: in a successfully parsed timestamp every
position is a digit or a structural ASCII character, except the
separator slot at index 10, which must have matched the T (or, for the
upstream format, the space) that selected the branch — so such a string
always fails one of the character tests and the attempt raises. -/
def pwtJ (localOff : Int) (v : JVal) : Int :=
  match v with
  | .str l =>
    match cpsString? l with
    | some s => parse_webhook_timestamp localOff s
    | none => sentinel2000
  | _ => sentinel2000

/-- The parsed created_at of a request as the engine sees it: present
exactly when the request is a dict with a truthy created_at value
(lines 219-231); none means the element is skipped before any timestamp
tracking. -/
def evCreatedTs (localOff : Int) (req : JVal) : Option Int :=
  match req with
  | .obj _ =>
    match jget req (cps "created_at") with
    | some ca => if jtruthy ca then some (pwtJ localOff ca) else none
    | none => none
  | _ => none

/-- One recorded invocation of the sink (the subprocess launched by
print_message): the index of the originating request in the batch, the
prepared (truncated) message text, and whether the subprocess
succeeded. -/
structure SinkCall where
  idx : Nat
  msg : String
  ok : Bool

/-- Engine state while iterating a batch. -/
structure EngSt where
  mostRecent : Int
  calls : List SinkCall
  aborted : Bool

/-- The effect of one for-loop body execution on the engine state. -/
inductive StepEff where
  | skip
  | track (t : Int)
  | trackAbort (t : Int)
  | trackCall (t : Int) (s : String)

/-- Control flow of the loop body (lines 219-263) for one request:
skip (non-dict, falsy created_at, or not newer than the watermark);
track only (ineligible, no message, falsy message, or a message on
which the print path raises a caught exception — lists and dicts fail
inside print_message, where the per-event handler catches them);
track then abort (uncaught exception: non-string method reached by
.upper(); a truthy int, float or True as message, where len() at line
255 raises outside any handler; or a truthy string message holding a
lone surrogate, where print(message) at line 256 raises an encoding
error outside any handler); or track and invoke the sink (truthy
surrogate-free string message). -/
def classifyReq (localOff last : Int) (req : JVal) : StepEff :=
  match evCreatedTs localOff req with
  | none => .skip
  | some t =>
    if t ≤ last then .skip
    else
      match is_valid_post_json_message req with
      | none => .trackAbort t
      | some false => .track t
      | some true =>
        match extract_message req with
        | none => .track t
        | some m =>
          if jtruthy m then
            match m with
            | .str l =>
              if l.all scalarCp then .trackCall t (String.mk (l.map Char.ofNat))
              else .trackAbort t
            | .num _ => .trackAbort t
            | .fnum _ => .trackAbort t
            | .bool _ => .trackAbort t
            | _ => .track t
          else .track t

/-- State update for one request: most_recent is raised to the parsed
timestamp whenever the request is tracked (lines 242-243, before the
eligibility check); a sink invocation appends to the call trace, its
success given by the failure oracle at the current call count; an
uncaught exception sets the aborted flag. -/
def stepReq (localOff maxLen last : Int) (fails : Nat → Bool) (i : Nat)
    (req : JVal) (st : EngSt) : EngSt :=
  match classifyReq localOff last req with
  | .skip => st
  | .track t => if st.mostRecent < t then { st with mostRecent := t } else st
  | .trackAbort t =>
    if st.mostRecent < t then { st with mostRecent := t, aborted := true }
    else { st with aborted := true }
  | .trackCall t s =>
    if st.mostRecent < t then
      { st with
          mostRecent := t
          calls := st.calls ++ [⟨i, prepare s maxLen, !(fails st.calls.length)⟩] }
    else
      { st with
          calls := st.calls ++ [⟨i, prepare s maxLen, !(fails st.calls.length)⟩] }

/-- The for-loop over the batch: processing stops (state frozen) once an
uncaught exception has escaped to the outer handler. -/
def procReqs (localOff maxLen last : Int) (fails : Nat → Bool) :
    List JVal → Nat → EngSt → EngSt
  | [], _, st => st
  | r :: rs, i, st =>
    if st.aborted then st
    else procReqs localOff maxLen last fails rs (i + 1)
      (stepReq localOff maxLen last fails i r st)

/-- Observable outcome of one poll iteration: the in-memory watermark
after the iteration, the list of save_timestamp writes (lines 266-268;
empty or a single value), the sink-call trace, and whether the batch
aborted. -/
structure IterResult where
  newLast : Int
  saves : List Int
  calls : List SinkCall
  aborted : Bool

/-- One poll iteration over an already-fetched batch, starting from the
watermark value last. -/
def runIteration (localOff maxLen : Int) (fails : Nat → Bool) (last : Int)
    (reqs : List JVal) : IterResult :=
  let st := procReqs localOff maxLen last fails reqs 0 ⟨last, [], false⟩
  if st.aborted then ⟨last, [], st.calls, true⟩
  else if st.mostRecent > last then ⟨st.mostRecent, [st.mostRecent], st.calls, false⟩
  else ⟨last, [], st.calls, false⟩

/-- The failure-independent part of a sink call. -/
def callProj (c : SinkCall) : Nat × String := (c.idx, c.msg)

/-! ### Inversion lemmas for classifyReq -/

theorem classify_trackAbort_ts {localOff last : Int} {req : JVal} {t : Int}
    (h : classifyReq localOff last req = .trackAbort t) :
    evCreatedTs localOff req = some t ∧ last < t := by
  unfold classifyReq at h
  cases hts : evCreatedTs localOff req with
  | none => simp only [hts] at h; exact StepEff.noConfusion h
  | some t' =>
    simp only [hts] at h
    by_cases hle : t' ≤ last
    · rw [if_pos hle] at h; exact StepEff.noConfusion h
    · rw [if_neg hle] at h
      have ht : t' = t := by
        cases hv : is_valid_post_json_message req with
        | none => simp only [hv] at h; injection h with h1
        | some b =>
          simp only [hv] at h
          cases b with
          | false => exact StepEff.noConfusion h
          | true =>
            cases hm : extract_message req with
            | none => simp only [hm] at h; exact StepEff.noConfusion h
            | some m =>
              simp only [hm] at h
              by_cases htr : jtruthy m = true
              · rw [if_pos htr] at h
                cases m with
                | str l =>
                  dsimp only at h
                  split at h
                  · exact StepEff.noConfusion h
                  · injection h with h1
                | num n => injection h with h1
                | fnum x => injection h with h1
                | bool b2 => injection h with h1
                | null => exact StepEff.noConfusion h
                | arr xs => exact StepEff.noConfusion h
                | obj fs => exact StepEff.noConfusion h
              · rw [if_neg htr] at h
                exact StepEff.noConfusion h
      subst ht
      exact ⟨rfl, by omega⟩

theorem classify_trackCall_inv {localOff last : Int} {req : JVal} {t : Int}
    {s : String} (h : classifyReq localOff last req = .trackCall t s) :
    evCreatedTs localOff req = some t ∧ last < t ∧
    is_valid_post_json_message req = some true ∧
    ∃ l, extract_message req = some (.str l) ∧ l ≠ [] ∧
      l.all scalarCp = true ∧ s = String.mk (l.map Char.ofNat) := by
  unfold classifyReq at h
  cases hts : evCreatedTs localOff req with
  | none => simp only [hts] at h; exact StepEff.noConfusion h
  | some t' =>
    simp only [hts] at h
    by_cases hle : t' ≤ last
    · rw [if_pos hle] at h; exact StepEff.noConfusion h
    · rw [if_neg hle] at h
      cases hv : is_valid_post_json_message req with
      | none => simp only [hv] at h; exact StepEff.noConfusion h
      | some b =>
        simp only [hv] at h
        cases b with
        | false => exact StepEff.noConfusion h
        | true =>
          cases hm : extract_message req with
          | none => simp only [hm] at h; exact StepEff.noConfusion h
          | some m =>
            simp only [hm] at h
            by_cases htr : jtruthy m = true
            · rw [if_pos htr] at h
              cases m with
              | str l =>
                dsimp only at h
                by_cases hsc : l.all scalarCp = true
                · rw [if_pos hsc] at h
                  injection h with h1 h2
                  subst h1
                  refine ⟨rfl, by omega, rfl, l, rfl, ?_, hsc, h2.symm⟩
                  intro hl
                  rw [hl] at htr
                  simp [jtruthy] at htr
                · rw [if_neg hsc] at h
                  exact StepEff.noConfusion h
              | null => exact StepEff.noConfusion h
              | bool b2 => exact StepEff.noConfusion h
              | num n => exact StepEff.noConfusion h
              | fnum x => exact StepEff.noConfusion h
              | arr xs => exact StepEff.noConfusion h
              | obj fs => exact StepEff.noConfusion h
            · rw [if_neg htr] at h
              exact StepEff.noConfusion h

theorem classify_of_old {localOff last : Int} {req : JVal} {t : Int}
    (hts : evCreatedTs localOff req = some t) (hle : t ≤ last) :
    classifyReq localOff last req = .skip := by
  unfold classifyReq
  simp only [hts, if_pos hle]

theorem classify_of_ineligible {localOff last : Int} {req : JVal} {t : Int}
    (hts : evCreatedTs localOff req = some t) (hgt : last < t)
    (hv : is_valid_post_json_message req = some false) :
    classifyReq localOff last req = .track t := by
  unfold classifyReq
  simp only [hts, if_neg (by omega : ¬ t ≤ last), hv]

theorem classify_of_falsy {localOff last : Int} {req : JVal} {t : Int} {m : JVal}
    (hts : evCreatedTs localOff req = some t) (hgt : last < t)
    (hv : is_valid_post_json_message req = some true)
    (hm : extract_message req = some m) (hf : jtruthy m = false) :
    classifyReq localOff last req = .track t := by
  unfold classifyReq
  simp only [hts, if_neg (by omega : ¬ t ≤ last), hv, hm, hf]
  rfl

/-! ### Normal forms of stepReq and facts about the batch fold -/

theorem ite_lt_eq_max (a t : Int) : (if a < t then t else a) = max a t := by
  by_cases h : a < t
  · rw [if_pos h, max_eq_right (le_of_lt h)]
  · rw [if_neg h, max_eq_left (not_lt.mp h)]

theorem stepReq_eq_skip {localOff maxLen last : Int} {fails : Nat → Bool}
    {i : Nat} {req : JVal} {st : EngSt}
    (h : classifyReq localOff last req = .skip) :
    stepReq localOff maxLen last fails i req st = st := by
  unfold stepReq
  rw [h]

theorem stepReq_eq_track {localOff maxLen last : Int} {fails : Nat → Bool}
    {i : Nat} {req : JVal} {st : EngSt} {t : Int}
    (h : classifyReq localOff last req = .track t) :
    stepReq localOff maxLen last fails i req st =
      { st with mostRecent := max st.mostRecent t } := by
  unfold stepReq
  simp only [h]
  by_cases hlt : st.mostRecent < t
  · rw [if_pos hlt, max_eq_right (le_of_lt hlt)]
  · rw [if_neg hlt, max_eq_left (not_lt.mp hlt)]

theorem stepReq_eq_trackAbort {localOff maxLen last : Int} {fails : Nat → Bool}
    {i : Nat} {req : JVal} {st : EngSt} {t : Int}
    (h : classifyReq localOff last req = .trackAbort t) :
    stepReq localOff maxLen last fails i req st =
      { st with mostRecent := max st.mostRecent t, aborted := true } := by
  unfold stepReq
  simp only [h]
  by_cases hlt : st.mostRecent < t
  · rw [if_pos hlt, max_eq_right (le_of_lt hlt)]
  · rw [if_neg hlt, max_eq_left (not_lt.mp hlt)]

theorem stepReq_eq_trackCall {localOff maxLen last : Int} {fails : Nat → Bool}
    {i : Nat} {req : JVal} {st : EngSt} {t : Int} {s : String}
    (h : classifyReq localOff last req = .trackCall t s) :
    stepReq localOff maxLen last fails i req st =
      { st with
          mostRecent := max st.mostRecent t
          calls := st.calls ++ [⟨i, prepare s maxLen, !(fails st.calls.length)⟩] } := by
  unfold stepReq
  simp only [h]
  by_cases hlt : st.mostRecent < t
  · rw [if_pos hlt, max_eq_right (le_of_lt hlt)]
  · rw [if_neg hlt, max_eq_left (not_lt.mp hlt)]

theorem procReqs_calls_sound (localOff maxLen last : Int) (fails : Nat → Bool)
    (reqs : List JVal) :
    ∀ (i0 : Nat) (st : EngSt) (c : SinkCall),
      c ∈ (procReqs localOff maxLen last fails reqs i0 st).calls →
      c ∈ st.calls ∨ ∃ j req t s, reqs[j]? = some req ∧ c.idx = i0 + j ∧
        classifyReq localOff last req = .trackCall t s ∧
        c.msg = prepare s maxLen := by
  induction reqs with
  | nil => intro i0 st c hc; exact Or.inl hc
  | cons r rs ih =>
    intro i0 st c hc
    simp only [procReqs] at hc
    by_cases hab : st.aborted = true
    · rw [if_pos hab] at hc
      exact Or.inl hc
    · rw [if_neg hab] at hc
      rcases ih (i0 + 1) (stepReq localOff maxLen last fails i0 r st) c hc with
        hin | ⟨j, req, t, s, hj, hidx, hcl, hmsg⟩
      · cases hcr : classifyReq localOff last r with
        | skip =>
          rw [stepReq_eq_skip hcr] at hin
          exact Or.inl hin
        | track t' =>
          rw [stepReq_eq_track hcr] at hin
          exact Or.inl hin
        | trackAbort t' =>
          rw [stepReq_eq_trackAbort hcr] at hin
          exact Or.inl hin
        | trackCall t' s' =>
          rw [stepReq_eq_trackCall hcr] at hin
          rcases List.mem_append.mp hin with h1 | h2
          · exact Or.inl h1
          · have hceq := List.mem_singleton.mp h2
            subst hceq
            exact Or.inr ⟨0, r, t', s', by simp, by simp, hcr, rfl⟩
      · refine Or.inr ⟨j + 1, req, t, s, ?_, by omega, hcl, hmsg⟩
        simpa using hj


theorem procReqs_mostRecent_ge (localOff maxLen last : Int) (fails : Nat → Bool)
    (reqs : List JVal) :
    ∀ (i0 : Nat) (st : EngSt),
      st.mostRecent ≤ (procReqs localOff maxLen last fails reqs i0 st).mostRecent := by
  induction reqs with
  | nil => intro i0 st; exact le_refl _
  | cons r rs ih =>
    intro i0 st
    simp only [procReqs]
    by_cases hab : st.aborted = true
    · rw [if_pos hab]
    · rw [if_neg hab]
      refine le_trans ?_ (ih (i0 + 1) (stepReq localOff maxLen last fails i0 r st))
      cases hcr : classifyReq localOff last r with
      | skip => rw [stepReq_eq_skip hcr]
      | track t => rw [stepReq_eq_track hcr]; exact le_max_left _ _
      | trackAbort t => rw [stepReq_eq_trackAbort hcr]; exact le_max_left _ _
      | trackCall t s => rw [stepReq_eq_trackCall hcr]; exact le_max_left _ _

theorem procReqs_of_aborted {localOff maxLen last : Int} {fails : Nat → Bool}
    {reqs : List JVal} {i0 : Nat} {st : EngSt} (hab : st.aborted = true) :
    procReqs localOff maxLen last fails reqs i0 st = st := by
  cases reqs with
  | nil => rfl
  | cons r rs =>
    simp only [procReqs]
    rw [if_pos hab]

theorem procReqs_append (localOff maxLen last : Int) (fails : Nat → Bool)
    (l1 l2 : List JVal) :
    ∀ (i0 : Nat) (st : EngSt),
      procReqs localOff maxLen last fails (l1 ++ l2) i0 st =
        procReqs localOff maxLen last fails l2 (i0 + l1.length)
          (procReqs localOff maxLen last fails l1 i0 st) := by
  induction l1 with
  | nil => intro i0 st; simp [procReqs]
  | cons r rs ih =>
    intro i0 st
    simp only [List.cons_append, procReqs, List.length_cons]
    by_cases hab : st.aborted = true
    · rw [if_pos hab, if_pos hab, procReqs_of_aborted hab]
    · rw [if_neg hab, if_neg hab]
      have hih := ih (i0 + 1) (stepReq localOff maxLen last fails i0 r st)
      refine hih.trans ?_
      rw [show i0 + 1 + rs.length = i0 + (rs.length + 1) by omega]

theorem procReqs_fails_inv (localOff maxLen last : Int) (fails fails' : Nat → Bool)
    (reqs : List JVal) :
    ∀ (i0 : Nat) (st st' : EngSt),
      st.mostRecent = st'.mostRecent → st.aborted = st'.aborted →
      st.calls.map callProj = st'.calls.map callProj →
      (procReqs localOff maxLen last fails reqs i0 st).mostRecent =
        (procReqs localOff maxLen last fails' reqs i0 st').mostRecent ∧
      (procReqs localOff maxLen last fails reqs i0 st).aborted =
        (procReqs localOff maxLen last fails' reqs i0 st').aborted ∧
      (procReqs localOff maxLen last fails reqs i0 st).calls.map callProj =
        (procReqs localOff maxLen last fails' reqs i0 st').calls.map callProj := by
  induction reqs with
  | nil => intro i0 st st' h1 h2 h3; exact ⟨h1, h2, h3⟩
  | cons r rs ih =>
    intro i0 st st' h1 h2 h3
    simp only [procReqs]
    by_cases hab : st.aborted = true
    · rw [if_pos hab, if_pos (by rw [← h2]; exact hab)]
      exact ⟨h1, h2, h3⟩
    · rw [if_neg hab, if_neg (by rw [← h2]; exact hab)]
      have hrel :
          (stepReq localOff maxLen last fails i0 r st).mostRecent =
            (stepReq localOff maxLen last fails' i0 r st').mostRecent ∧
          (stepReq localOff maxLen last fails i0 r st).aborted =
            (stepReq localOff maxLen last fails' i0 r st').aborted ∧
          (stepReq localOff maxLen last fails i0 r st).calls.map callProj =
            (stepReq localOff maxLen last fails' i0 r st').calls.map callProj := by
        cases hcr : classifyReq localOff last r with
        | skip =>
          rw [stepReq_eq_skip hcr, stepReq_eq_skip hcr]
          exact ⟨h1, h2, h3⟩
        | track t =>
          rw [stepReq_eq_track hcr, stepReq_eq_track hcr]
          exact ⟨by rw [h1], h2, h3⟩
        | trackAbort t =>
          rw [stepReq_eq_trackAbort hcr, stepReq_eq_trackAbort hcr]
          exact ⟨by rw [h1], rfl, h3⟩
        | trackCall t s =>
          rw [stepReq_eq_trackCall hcr, stepReq_eq_trackCall hcr]
          refine ⟨by rw [h1], h2, ?_⟩
          simp only [List.map_append]
          rw [h3]
          rfl
      exact ih (i0 + 1) _ _ hrel.1 hrel.2.1 hrel.2.2

theorem procReqs_idx_inv (localOff maxLen last : Int) (fails : Nat → Bool)
    (reqs : List JVal) :
    ∀ (i0 i0' : Nat) (st st' : EngSt),
      st.mostRecent = st'.mostRecent → st.aborted = st'.aborted →
      st.calls.map SinkCall.msg = st'.calls.map SinkCall.msg →
      st.calls.length = st'.calls.length →
      (procReqs localOff maxLen last fails reqs i0 st).mostRecent =
        (procReqs localOff maxLen last fails reqs i0' st').mostRecent ∧
      (procReqs localOff maxLen last fails reqs i0 st).aborted =
        (procReqs localOff maxLen last fails reqs i0' st').aborted ∧
      (procReqs localOff maxLen last fails reqs i0 st).calls.map SinkCall.msg =
        (procReqs localOff maxLen last fails reqs i0' st').calls.map SinkCall.msg := by
  induction reqs with
  | nil => intro i0 i0' st st' h1 h2 h3 h4; exact ⟨h1, h2, h3⟩
  | cons r rs ih =>
    intro i0 i0' st st' h1 h2 h3 h4
    simp only [procReqs]
    by_cases hab : st.aborted = true
    · rw [if_pos hab, if_pos (by rw [← h2]; exact hab)]
      exact ⟨h1, h2, h3⟩
    · rw [if_neg hab, if_neg (by rw [← h2]; exact hab)]
      have hrel :
          (stepReq localOff maxLen last fails i0 r st).mostRecent =
            (stepReq localOff maxLen last fails i0' r st').mostRecent ∧
          (stepReq localOff maxLen last fails i0 r st).aborted =
            (stepReq localOff maxLen last fails i0' r st').aborted ∧
          (stepReq localOff maxLen last fails i0 r st).calls.map SinkCall.msg =
            (stepReq localOff maxLen last fails i0' r st').calls.map SinkCall.msg ∧
          (stepReq localOff maxLen last fails i0 r st).calls.length =
            (stepReq localOff maxLen last fails i0' r st').calls.length := by
        cases hcr : classifyReq localOff last r with
        | skip =>
          rw [stepReq_eq_skip hcr, stepReq_eq_skip hcr]
          exact ⟨h1, h2, h3, h4⟩
        | track t =>
          rw [stepReq_eq_track hcr, stepReq_eq_track hcr]
          exact ⟨by rw [h1], h2, h3, h4⟩
        | trackAbort t =>
          rw [stepReq_eq_trackAbort hcr, stepReq_eq_trackAbort hcr]
          exact ⟨by rw [h1], rfl, h3, h4⟩
        | trackCall t s =>
          rw [stepReq_eq_trackCall hcr, stepReq_eq_trackCall hcr]
          refine ⟨by rw [h1], h2, ?_, ?_⟩
          · simp only [List.map_append]
            rw [h3]
            rfl
          · simp only [List.length_append]
            rw [h4]
            rfl
      exact ih (i0 + 1) (i0' + 1) _ _ hrel.1 hrel.2.1 hrel.2.2.1 hrel.2.2.2

theorem runIteration_calls_eq (localOff maxLen : Int) (fails : Nat → Bool)
    (last : Int) (reqs : List JVal) :
    (runIteration localOff maxLen fails last reqs).calls =
      (procReqs localOff maxLen last fails reqs 0 ⟨last, [], false⟩).calls := by
  unfold runIteration
  dsimp only
  split
  · rfl
  · split
    · rfl
    · rfl

theorem runIteration_newLast_ge (localOff maxLen : Int) (fails : Nat → Bool)
    (last : Int) (reqs : List JVal) :
    last ≤ (runIteration localOff maxLen fails last reqs).newLast := by
  unfold runIteration
  dsimp only
  split
  · exact le_refl last
  · split
    · rename_i h
      exact le_of_lt h
    · exact le_refl last

/-! ### Concrete requests used by counterexamples and witnesses -/

/-- An eligible POST with message "hi", created 2001-02-03T04:05:06Z. -/
def reqEligibleNewer : JVal :=
  .obj [(cps "created_at", js "2001-02-03T04:05:06Z"),
    (cps "method", js "POST"),
    (cps "content", js "\x7b\x22message\x22:\x22hi\x22\x7d")]

/-- Transfer of batch-level agreement to the iteration outcome. -/
theorem runIteration_congr (localOff maxLen : Int) (fails : Nat → Bool)
    (last : Int) (reqs reqs' : List JVal)
    (h1 : (procReqs localOff maxLen last fails reqs 0 ⟨last, [], false⟩).mostRecent =
      (procReqs localOff maxLen last fails reqs' 0 ⟨last, [], false⟩).mostRecent)
    (h2 : (procReqs localOff maxLen last fails reqs 0 ⟨last, [], false⟩).aborted =
      (procReqs localOff maxLen last fails reqs' 0 ⟨last, [], false⟩).aborted)
    (h3 : (procReqs localOff maxLen last fails reqs 0 ⟨last, [], false⟩).calls.map
        SinkCall.msg =
      (procReqs localOff maxLen last fails reqs' 0 ⟨last, [], false⟩).calls.map
        SinkCall.msg) :
    (runIteration localOff maxLen fails last reqs).newLast =
      (runIteration localOff maxLen fails last reqs').newLast ∧
    (runIteration localOff maxLen fails last reqs).saves =
      (runIteration localOff maxLen fails last reqs').saves ∧
    (runIteration localOff maxLen fails last reqs).aborted =
      (runIteration localOff maxLen fails last reqs').aborted ∧
    (runIteration localOff maxLen fails last reqs).calls.map SinkCall.msg =
      (runIteration localOff maxLen fails last reqs').calls.map SinkCall.msg := by
  by_cases habo :
      (procReqs localOff maxLen last fails reqs 0 ⟨last, [], false⟩).aborted = true
  · have habo' :
        (procReqs localOff maxLen last fails reqs' 0 ⟨last, [], false⟩).aborted = true := by
      rw [← h2]; exact habo
    unfold runIteration
    dsimp only
    rw [if_pos habo, if_pos habo']
    exact ⟨rfl, rfl, rfl, h3⟩
  · have habo' :
        ¬ (procReqs localOff maxLen last fails reqs' 0 ⟨last, [], false⟩).aborted = true := by
      rw [← h2]; exact habo
    unfold runIteration
    dsimp only
    rw [if_neg habo, if_neg habo', h1]
    by_cases hgt :
        (procReqs localOff maxLen last fails reqs' 0 ⟨last, [], false⟩).mostRecent > last
    · rw [if_pos hgt, if_pos hgt]
      exact ⟨rfl, rfl, rfl, h3⟩
    · rw [if_neg hgt, if_neg hgt]
      exact ⟨rfl, rfl, rfl, h3⟩

/-! ### Claims about the engine -/

/-- Claim C8: a sink (print) failure is confined to the failing call:
for any two failure oracles the iteration aborts identically, computes
the same watermark and the same save, and makes the same sink
invocations (same originating event index and same prepared message).
In particular sink failures never abort the batch, never suppress later
events, and never block the watermark advance. -/
theorem sink_failure_isolated (localOff maxLen last : Int)
    (fails fails' : Nat → Bool) (reqs : List JVal) :
    (runIteration localOff maxLen fails last reqs).newLast =
      (runIteration localOff maxLen fails' last reqs).newLast ∧
    (runIteration localOff maxLen fails last reqs).saves =
      (runIteration localOff maxLen fails' last reqs).saves ∧
    (runIteration localOff maxLen fails last reqs).aborted =
      (runIteration localOff maxLen fails' last reqs).aborted ∧
    (runIteration localOff maxLen fails last reqs).calls.map callProj =
      (runIteration localOff maxLen fails' last reqs).calls.map callProj := by
  obtain ⟨h1, h2, h3⟩ := procReqs_fails_inv localOff maxLen last fails fails' reqs 0
    ⟨last, [], false⟩ ⟨last, [], false⟩ rfl rfl rfl
  by_cases habo :
      (procReqs localOff maxLen last fails reqs 0 ⟨last, [], false⟩).aborted = true
  · have habo' :
        (procReqs localOff maxLen last fails' reqs 0 ⟨last, [], false⟩).aborted = true := by
      rw [← h2]; exact habo
    unfold runIteration
    dsimp only
    rw [if_pos habo, if_pos habo']
    exact ⟨rfl, rfl, rfl, h3⟩
  · have habo' :
        ¬ (procReqs localOff maxLen last fails' reqs 0 ⟨last, [], false⟩).aborted = true := by
      rw [← h2]; exact habo
    unfold runIteration
    dsimp only
    rw [if_neg habo, if_neg habo', h1]
    by_cases hgt :
        (procReqs localOff maxLen last fails' reqs 0 ⟨last, [], false⟩).mostRecent > last
    · rw [if_pos hgt, if_pos hgt]
      exact ⟨rfl, rfl, rfl, h3⟩
    · rw [if_neg hgt, if_neg hgt]
      exact ⟨rfl, rfl, rfl, h3⟩

/-- The skip condition of claim C10: the batch element is not a JSON
object, or its created_at field is absent or the empty string. -/
def skippedElem (req : JVal) : Prop :=
  jIsObj req = false ∨ jget req (cps "created_at") = none ∨
    jget req (cps "created_at") = some (.str [])

theorem skipped_evts {localOff : Int} {req : JVal} (h : skippedElem req) :
    evCreatedTs localOff req = none := by
  rcases h with h | h | h
  · cases req with
    | obj fs => exact absurd h (by simp [jIsObj])
    | null => rfl
    | bool b => rfl
    | num n => rfl
    | fnum x => rfl
    | str s => rfl
    | arr xs => rfl
  · cases req with
    | obj fs => simp [evCreatedTs, h]
    | null => rfl
    | bool b => rfl
    | num n => rfl
    | fnum x => rfl
    | str s => rfl
    | arr xs => rfl
  · cases req with
    | obj fs => simp [evCreatedTs, h, jtruthy]
    | null => rfl
    | bool b => rfl
    | num n => rfl
    | fnum x => rfl
    | str s => rfl
    | arr xs => rfl

/-- Claim C10: an element that is not a JSON object, or whose
created_at is absent or empty, is skipped before timestamp tracking: no
sink call originates from its position, and the iteration outcome
(in-memory watermark, persisted saves, abort flag, forwarded messages)
is the same as for the batch with that element removed. -/
theorem skipped_element_no_effect (localOff maxLen : Int) (fails : Nat → Bool)
    (last : Int) (l1 l2 : List JVal) (req : JVal) (hskip : skippedElem req) :
    (∀ c ∈ (runIteration localOff maxLen fails last (l1 ++ req :: l2)).calls,
      c.idx ≠ l1.length) ∧
    (runIteration localOff maxLen fails last (l1 ++ req :: l2)).newLast =
      (runIteration localOff maxLen fails last (l1 ++ l2)).newLast ∧
    (runIteration localOff maxLen fails last (l1 ++ req :: l2)).saves =
      (runIteration localOff maxLen fails last (l1 ++ l2)).saves ∧
    (runIteration localOff maxLen fails last (l1 ++ req :: l2)).aborted =
      (runIteration localOff maxLen fails last (l1 ++ l2)).aborted ∧
    (runIteration localOff maxLen fails last (l1 ++ req :: l2)).calls.map
        SinkCall.msg =
      (runIteration localOff maxLen fails last (l1 ++ l2)).calls.map
        SinkCall.msg := by
  have hets : evCreatedTs localOff req = none := skipped_evts hskip
  constructor
  · intro c hc hidx
    rw [runIteration_calls_eq] at hc
    rcases procReqs_calls_sound localOff maxLen last fails _ 0 _ c hc with
      hin | ⟨j, req', t', s, hj, hidx', hcl, _⟩
    · exact absurd hin (List.not_mem_nil c)
    · have hji : j = l1.length := by omega
      subst hji
      have hat : (l1 ++ req :: l2)[l1.length]? = some req := by
        rw [List.getElem?_append_right (le_refl l1.length)]
        simp
      rw [hat] at hj
      injection hj with hj
      subst hj
      obtain ⟨hts', _, _, _⟩ := classify_trackCall_inv hcl
      rw [hets] at hts'
      exact Option.noConfusion hts'
  · have hsplit1 := procReqs_append localOff maxLen last fails l1 (req :: l2) 0
      ⟨last, [], false⟩
    have hsplit2 := procReqs_append localOff maxLen last fails l1 l2 0
      ⟨last, [], false⟩
    by_cases habQ :
        (procReqs localOff maxLen last fails l1 0 ⟨last, [], false⟩).aborted = true
    · have he1 : procReqs localOff maxLen last fails (l1 ++ req :: l2) 0
          ⟨last, [], false⟩ =
          procReqs localOff maxLen last fails l1 0 ⟨last, [], false⟩ := by
        rw [hsplit1, procReqs_of_aborted habQ]
      have he2 : procReqs localOff maxLen last fails (l1 ++ l2) 0
          ⟨last, [], false⟩ =
          procReqs localOff maxLen last fails l1 0 ⟨last, [], false⟩ := by
        rw [hsplit2, procReqs_of_aborted habQ]
      exact runIteration_congr localOff maxLen fails last _ _
        (by rw [he1, he2]) (by rw [he1, he2]) (by rw [he1, he2])
    · have he1 : procReqs localOff maxLen last fails (l1 ++ req :: l2) 0
          ⟨last, [], false⟩ =
          procReqs localOff maxLen last fails l2 (l1.length + 1)
            (procReqs localOff maxLen last fails l1 0 ⟨last, [], false⟩) := by
        rw [hsplit1]
        simp only [procReqs]
        rw [if_neg habQ,
          stepReq_eq_skip (by unfold classifyReq; rw [hets])]
        rw [show (0 : Nat) + l1.length + 1 = l1.length + 1 by omega]
      have he2 : procReqs localOff maxLen last fails (l1 ++ l2) 0
          ⟨last, [], false⟩ =
          procReqs localOff maxLen last fails l2 l1.length
            (procReqs localOff maxLen last fails l1 0 ⟨last, [], false⟩) := by
        rw [hsplit2]
        rw [show (0 : Nat) + l1.length = l1.length by omega]
      obtain ⟨g1, g2, g3⟩ := procReqs_idx_inv localOff maxLen last fails l2
        (l1.length + 1) l1.length
        (procReqs localOff maxLen last fails l1 0 ⟨last, [], false⟩)
        (procReqs localOff maxLen last fails l1 0 ⟨last, [], false⟩)
        rfl rfl rfl rfl
      exact runIteration_congr localOff maxLen fails last _ _
        (by rw [he1, he2]; exact g1) (by rw [he1, he2]; exact g2)
        (by rw [he1, he2]; exact g3)

/-- Claim C10 (witness): a bare number 3 in the batch is skipped: the
outcome equals that of the batch without it, and no call has index 0. -/
theorem skipped_element_no_effect_witness :
    (∀ c ∈ (runIteration 0 255 (fun _ => false) 0
        ([] ++ JVal.num 3 :: [reqEligibleNewer])).calls, c.idx ≠ List.length ([] : List JVal)) ∧
    (runIteration 0 255 (fun _ => false) 0 ([] ++ JVal.num 3 :: [reqEligibleNewer])).newLast =
      (runIteration 0 255 (fun _ => false) 0 ([] ++ [reqEligibleNewer])).newLast ∧
    (runIteration 0 255 (fun _ => false) 0 ([] ++ JVal.num 3 :: [reqEligibleNewer])).saves =
      (runIteration 0 255 (fun _ => false) 0 ([] ++ [reqEligibleNewer])).saves ∧
    (runIteration 0 255 (fun _ => false) 0 ([] ++ JVal.num 3 :: [reqEligibleNewer])).aborted =
      (runIteration 0 255 (fun _ => false) 0 ([] ++ [reqEligibleNewer])).aborted ∧
    (runIteration 0 255 (fun _ => false) 0 ([] ++ JVal.num 3 :: [reqEligibleNewer])).calls.map
        SinkCall.msg =
      (runIteration 0 255 (fun _ => false) 0 ([] ++ [reqEligibleNewer])).calls.map
        SinkCall.msg :=
  skipped_element_no_effect 0 255 (fun _ => false) 0 [] [reqEligibleNewer]
    (JVal.num 3) (Or.inl rfl)

/-! ### Claim C6: canonical ISO-8601 strings with an explicit UTC marker

The claim quantifies over valid ISO-8601 timestamp strings carrying an
explicit utc marker.  We formalise that set as the canonical
second-precision renderings YYYY-MM-DDTHH:MM:SSZ and
YYYY-MM-DDTHH:MM:SS±HH:MM over all valid field values, and prove that
the parser recovers exactly the denoted UTC instant (naive fields minus
the explicit offset), independently of the system local offset —
except when a nonzero offset carries the instant outside the
representable datetime range, where astimezone overflows and the
sentinel comes back instead (the counterexample below). -/

def digCh (d : Nat) : Char := Char.ofNat (48 + d % 10)

def pad2 (n : Nat) : List Char := [digCh (n / 10), digCh n]

def pad4 (n : Nat) : List Char :=
  [digCh (n / 1000), digCh (n / 100), digCh (n / 10), digCh n]

/-- Canonical second-precision ISO-8601 utc string YYYY-MM-DDTHH:MM:SSZ. -/
def isoCanonZ (y mo d h mi s : Nat) : String :=
  String.mk (pad4 y ++ '-' :: pad2 mo ++ '-' :: pad2 d ++ 'T' :: pad2 h ++
    ':' :: pad2 mi ++ ':' :: pad2 s ++ ['Z'])

/-- Canonical second-precision ISO-8601 string with an explicit numeric
offset YYYY-MM-DDTHH:MM:SS+HH:MM or YYYY-MM-DDTHH:MM:SS-HH:MM. -/
def isoCanonOff (y mo d h mi s : Nat) (plus : Bool) (oh om : Nat) : String :=
  String.mk (pad4 y ++ '-' :: pad2 mo ++ '-' :: pad2 d ++ 'T' :: pad2 h ++
    ':' :: pad2 mi ++ ':' :: pad2 s ++
    (if plus then '+' else '-') :: pad2 oh ++ ':' :: pad2 om)

/-- The civil fields expressible in the canonical strings. -/
def isoValid (y mo d h mi s : Nat) : Prop :=
  1 ≤ y ∧ y ≤ 9999 ∧ 1 ≤ mo ∧ mo ≤ 12 ∧ 1 ≤ d ∧ d ≤ daysInMonth y mo ∧
    h ≤ 23 ∧ mi ≤ 59 ∧ s ≤ 59

theorem chDig_digCh (d : Nat) : chDig (digCh d) = some (d % 10) := by
  unfold chDig digCh
  have h : d % 10 < 10 := Nat.mod_lt _ (by norm_num)
  revert h
  generalize d % 10 = r
  intro h
  interval_cases r <;> decide

theorem digCh_ne_minus (d : Nat) : digCh d ≠ '-' := by
  unfold digCh
  have h : d % 10 < 10 := Nat.mod_lt _ (by norm_num)
  revert h
  generalize d % 10 = r
  intro h
  interval_cases r <;> decide

theorem digCh_ne_plus (d : Nat) : digCh d ≠ '+' := by
  unfold digCh
  have h : d % 10 < 10 := Nat.mod_lt _ (by norm_num)
  revert h
  generalize d % 10 = r
  intro h
  interval_cases r <;> decide

theorem digCh_ne_big_z (d : Nat) : digCh d ≠ 'Z' := by
  unfold digCh
  have h : d % 10 < 10 := Nat.mod_lt _ (by norm_num)
  revert h
  generalize d % 10 = r
  intro h
  interval_cases r <;> decide

theorem parseIsoDate_canon (y mo d : Nat) (hy : y ≤ 9999) (hmo : mo ≤ 99)
    (hd : d ≤ 99) :
    parseIsoDate [digCh (y / 1000), digCh (y / 100), digCh (y / 10), digCh y,
      '-', digCh (mo / 10), digCh mo, '-', digCh (d / 10), digCh d] =
      some (y, mo, d) := by
  unfold parseIsoDate
  dsimp only
  rw [if_pos ⟨rfl, rfl⟩]
  simp only [chDig_digCh, Option.bind_eq_bind, Option.some_bind, Option.pure_def,
    Option.some.injEq, Prod.mk.injEq]
  refine ⟨?_, ?_, ?_⟩ <;> omega

theorem parseHMSF_hms (h mi s : Nat) (hh : h ≤ 99) (hmi : mi ≤ 99)
    (hs : s ≤ 99) :
    parseHMSF [digCh (h / 10), digCh h, ':', digCh (mi / 10), digCh mi, ':',
      digCh (s / 10), digCh s] = some (h, mi, s, 0) := by
  unfold parseHMSF
  dsimp only
  simp only [chDig_digCh, Option.bind_eq_bind, Option.some_bind, Option.pure_def,
    Option.some.injEq, Prod.mk.injEq, and_true]
  refine ⟨?_, ?_, ?_⟩ <;> omega

theorem parseHMSF_off (oh om : Nat) (h1 : oh ≤ 99) (h2 : om ≤ 99) :
    parseHMSF [digCh (oh / 10), digCh oh, ':', digCh (om / 10), digCh om] =
      some (oh, om, 0, 0) := by
  unfold parseHMSF
  dsimp only
  simp only [chDig_digCh, Option.bind_eq_bind, Option.some_bind, Option.pure_def,
    Option.some.injEq, Prod.mk.injEq, and_true]
  refine ⟨?_, ?_⟩ <;> omega

theorem parseHMSF_zz : parseHMSF ['0', '0', ':', '0', '0'] = some (0, 0, 0, 0) := by
  decide


theorem parseIsoTime_utc (h mi s : Nat) (hh : h ≤ 99) (hmi : mi ≤ 99)
    (hs : s ≤ 99) :
    parseIsoTime [digCh (h / 10), digCh h, ':', digCh (mi / 10), digCh mi, ':',
      digCh (s / 10), digCh s, '+', '0', '0', ':', '0', '0'] =
      some (h, mi, s, 0, some 0) := by
  have hfm : firstIdxOf [digCh (h / 10), digCh h, ':', digCh (mi / 10), digCh mi,
      ':', digCh (s / 10), digCh s, '+', '0', '0', ':', '0', '0'] '-' = none := by
    simp [firstIdxOf, digCh_ne_minus]
  have hfp : firstIdxOf [digCh (h / 10), digCh h, ':', digCh (mi / 10), digCh mi,
      ':', digCh (s / 10), digCh s, '+', '0', '0', ':', '0', '0'] '+' = some 8 := by
    simp [firstIdxOf, digCh_ne_plus]
  unfold parseIsoTime
  simp only [hfm, hfp]
  simp only [List.take, List.drop]
  norm_num
  rw [parseHMSF_hms h mi s hh hmi hs, parseHMSF_zz]
  simp only [Option.some_bind]
  norm_num

theorem parseIsoTime_plus (h mi s oh om : Nat) (hh : h ≤ 99) (hmi : mi ≤ 99)
    (hs : s ≤ 99) (hoh : oh ≤ 23) (hom : om ≤ 59) :
    parseIsoTime [digCh (h / 10), digCh h, ':', digCh (mi / 10), digCh mi, ':',
      digCh (s / 10), digCh s, '+', digCh (oh / 10), digCh oh, ':',
      digCh (om / 10), digCh om] =
      some (h, mi, s, 0, some (((oh * 3600 + om * 60) * 1000000 : Nat) : Int)) := by
  have hfm : firstIdxOf [digCh (h / 10), digCh h, ':', digCh (mi / 10), digCh mi,
      ':', digCh (s / 10), digCh s, '+', digCh (oh / 10), digCh oh, ':',
      digCh (om / 10), digCh om] '-' = none := by
    simp [firstIdxOf, digCh_ne_minus]
  have hfp : firstIdxOf [digCh (h / 10), digCh h, ':', digCh (mi / 10), digCh mi,
      ':', digCh (s / 10), digCh s, '+', digCh (oh / 10), digCh oh, ':',
      digCh (om / 10), digCh om] '+' = some 8 := by
    simp [firstIdxOf, digCh_ne_plus]
  unfold parseIsoTime
  simp only [hfm, hfp]
  simp only [List.take, List.drop]
  norm_num
  rw [parseHMSF_hms h mi s hh hmi hs, parseHMSF_off oh om (by omega) (by omega)]
  simp only [Option.some_bind]
  rw [if_pos (by omega : (oh * 3600 + om * 60 + 0) * 1000000 + 0 < 86400000000),
    if_neg (by decide : ¬ ('+' : Char) = '-')]
  simp only [Option.some.injEq, Prod.mk.injEq, true_and]
  push_cast
  ring

theorem parseIsoTime_minus (h mi s oh om : Nat) (hh : h ≤ 99) (hmi : mi ≤ 99)
    (hs : s ≤ 99) (hoh : oh ≤ 23) (hom : om ≤ 59) :
    parseIsoTime [digCh (h / 10), digCh h, ':', digCh (mi / 10), digCh mi, ':',
      digCh (s / 10), digCh s, '-', digCh (oh / 10), digCh oh, ':',
      digCh (om / 10), digCh om] =
      some (h, mi, s, 0, some (-(((oh * 3600 + om * 60) * 1000000 : Nat) : Int))) := by
  have hfm : firstIdxOf [digCh (h / 10), digCh h, ':', digCh (mi / 10), digCh mi,
      ':', digCh (s / 10), digCh s, '-', digCh (oh / 10), digCh oh, ':',
      digCh (om / 10), digCh om] '-' = some 8 := by
    simp [firstIdxOf, digCh_ne_minus]
  unfold parseIsoTime
  simp only [hfm]
  simp only [List.take, List.drop]
  norm_num
  rw [parseHMSF_hms h mi s hh hmi hs, parseHMSF_off oh om (by omega) (by omega)]
  simp only [Option.some_bind]
  rw [if_pos (by omega : (oh * 3600 + om * 60 + 0) * 1000000 + 0 < 86400000000)]
  simp only [Option.some.injEq, Prod.mk.injEq, true_and]
  push_cast
  ring


theorem daysInMonth_le31 (y m : Nat) : daysInMonth y m ≤ 31 := by
  unfold daysInMonth
  split
  · split <;> omega
  · split <;> omega

theorem daysFromCivil_bounds (y mo d : Nat) (h1 : 1 ≤ y) (h2 : y ≤ 9999)
    (h3 : 1 ≤ mo) (h4 : mo ≤ 12) (h5 : 1 ≤ d) (h6 : d ≤ 31) :
    -719162 ≤ daysFromCivil y mo d ∧ daysFromCivil y mo d ≤ 2932896 := by
  unfold daysFromCivil
  by_cases hm : mo ≤ 2
  · simp only [if_pos hm]
    omega
  · simp only [if_neg hm]
    omega

/-- Every constructor-valid set of civil fields denotes an instant
inside the representable datetime range. -/
theorem naive_in_range (y mo d h mi s us : Nat) (h1 : 1 ≤ y) (h2 : y ≤ 9999)
    (h3 : 1 ≤ mo) (h4 : mo ≤ 12) (h5 : 1 ≤ d) (h6 : d ≤ 31)
    (h7 : h ≤ 23) (h8 : mi ≤ 59) (h9 : s ≤ 59) (h10 : us ≤ 999999) :
    minInstant ≤ toMicros y mo d h mi s us ∧
      toMicros y mo d h mi s us ≤ maxInstant := by
  obtain ⟨hb1, hb2⟩ := daysFromCivil_bounds y mo d h1 h2 h3 h4 h5 h6
  have hmin : minInstant = -62135596800000000 := by decide
  have hmax : maxInstant = 253402300799999999 := by decide
  unfold toMicros
  rw [hmin, hmax]
  generalize hD : daysFromCivil y mo d = D at hb1 hb2 ⊢
  omega

theorem fromiso_utc (y mo d h mi s : Nat) (hv : isoValid y mo d h mi s) :
    fromiso [digCh (y / 1000), digCh (y / 100), digCh (y / 10), digCh y, '-',
      digCh (mo / 10), digCh mo, '-', digCh (d / 10), digCh d, 'T',
      digCh (h / 10), digCh h, ':', digCh (mi / 10), digCh mi, ':',
      digCh (s / 10), digCh s, '+', '0', '0', ':', '0', '0'] =
      some ⟨y, mo, d, h, mi, s, 0, some 0⟩ := by
  obtain ⟨h1, h2, h3, h4, h5, h6, h7, h8, h9⟩ := hv
  have hd99 : d ≤ 99 := by
    have := daysInMonth_le31 y mo
    omega
  have e1 : List.take 10 [digCh (y / 1000), digCh (y / 100), digCh (y / 10),
      digCh y, '-', digCh (mo / 10), digCh mo, '-', digCh (d / 10), digCh d, 'T',
      digCh (h / 10), digCh h, ':', digCh (mi / 10), digCh mi, ':',
      digCh (s / 10), digCh s, '+', '0', '0', ':', '0', '0'] =
      [digCh (y / 1000), digCh (y / 100), digCh (y / 10), digCh y, '-',
      digCh (mo / 10), digCh mo, '-', digCh (d / 10), digCh d] := rfl
  have e2 : List.drop 11 [digCh (y / 1000), digCh (y / 100), digCh (y / 10),
      digCh y, '-', digCh (mo / 10), digCh mo, '-', digCh (d / 10), digCh d, 'T',
      digCh (h / 10), digCh h, ':', digCh (mi / 10), digCh mi, ':',
      digCh (s / 10), digCh s, '+', '0', '0', ':', '0', '0'] =
      [digCh (h / 10), digCh h, ':', digCh (mi / 10), digCh mi, ':',
      digCh (s / 10), digCh s, '+', '0', '0', ':', '0', '0'] := rfl
  unfold fromiso
  simp only [e1, e2]
  rw [parseIsoDate_canon y mo d (by omega) (by omega) hd99]
  simp only [Option.bind_eq_bind, Option.some_bind, List.isEmpty_cons,
    Bool.false_eq_true, if_false]
  rw [parseIsoTime_utc h mi s (by omega) (by omega) (by omega)]
  simp only [Option.some_bind]
  rw [if_pos ⟨h1, h2, h3, h4, h5, h6, h7, h8, h9⟩]
  rfl

theorem fromiso_offTail (y mo d h mi s : Nat) (sgn : Char)
    (tail : List Char) (res : Nat × Nat × Nat × Nat × Option Int)
    (hv : isoValid y mo d h mi s)
    (hres : res.1 = h ∧ res.2.1 = mi ∧ res.2.2.1 = s ∧ res.2.2.2.1 = 0)
    (hpt : parseIsoTime ([digCh (h / 10), digCh h, ':', digCh (mi / 10),
      digCh mi, ':', digCh (s / 10), digCh s] ++ sgn :: tail) = some res) :
    fromiso ([digCh (y / 1000), digCh (y / 100), digCh (y / 10), digCh y, '-',
      digCh (mo / 10), digCh mo, '-', digCh (d / 10), digCh d, 'T',
      digCh (h / 10), digCh h, ':', digCh (mi / 10), digCh mi, ':',
      digCh (s / 10), digCh s] ++ sgn :: tail) =
      some ⟨y, mo, d, h, mi, s, 0, res.2.2.2.2⟩ := by
  obtain ⟨h1, h2, h3, h4, h5, h6, h7, h8, h9⟩ := hv
  obtain ⟨hr1, hr2, hr3, hr4⟩ := hres
  have hd99 : d ≤ 99 := by
    have := daysInMonth_le31 y mo
    omega
  have e1 : List.take 10 ([digCh (y / 1000), digCh (y / 100), digCh (y / 10),
      digCh y, '-', digCh (mo / 10), digCh mo, '-', digCh (d / 10), digCh d, 'T',
      digCh (h / 10), digCh h, ':', digCh (mi / 10), digCh mi, ':',
      digCh (s / 10), digCh s] ++ sgn :: tail) =
      [digCh (y / 1000), digCh (y / 100), digCh (y / 10), digCh y, '-',
      digCh (mo / 10), digCh mo, '-', digCh (d / 10), digCh d] := rfl
  have e2 : List.drop 11 ([digCh (y / 1000), digCh (y / 100), digCh (y / 10),
      digCh y, '-', digCh (mo / 10), digCh mo, '-', digCh (d / 10), digCh d, 'T',
      digCh (h / 10), digCh h, ':', digCh (mi / 10), digCh mi, ':',
      digCh (s / 10), digCh s] ++ sgn :: tail) =
      [digCh (h / 10), digCh h, ':', digCh (mi / 10), digCh mi, ':',
      digCh (s / 10), digCh s] ++ sgn :: tail := rfl
  unfold fromiso
  simp only [e1, e2]
  rw [parseIsoDate_canon y mo d (by omega) (by omega) hd99]
  simp only [Option.bind_eq_bind, Option.some_bind, List.cons_append,
    List.nil_append, List.isEmpty_cons, Bool.false_eq_true, if_false]
  rw [show ([digCh (h / 10), digCh h, ':', digCh (mi / 10), digCh mi, ':',
    digCh (s / 10), digCh s] ++ sgn :: tail : List Char) =
    digCh (h / 10) :: digCh h :: ':' :: digCh (mi / 10) :: digCh mi :: ':' ::
    digCh (s / 10) :: digCh s :: sgn :: tail from by simp] at hpt
  rw [hpt]
  simp only [Option.some_bind]
  rw [hr1, hr2, hr3, hr4]
  rw [if_pos ⟨h1, h2, h3, h4, h5, h6, h7, h8, h9⟩]
  rfl



theorem pwt_canonZ (localOff : Int) (y mo d h mi s : Nat)
    (hv : isoValid y mo d h mi s) :
    parse_webhook_timestamp localOff (isoCanonZ y mo d h mi s) =
      toMicros y mo d h mi s 0 := by
  show parse_webhook_timestamp localOff (String.mk
    [digCh (y / 1000), digCh (y / 100), digCh (y / 10), digCh y, '-',
     digCh (mo / 10), digCh mo, '-', digCh (d / 10), digCh d, 'T',
     digCh (h / 10), digCh h, ':', digCh (mi / 10), digCh mi, ':',
     digCh (s / 10), digCh s, 'Z']) = toMicros y mo d h mi s 0
  unfold parse_webhook_timestamp pwtTry
  dsimp only
  have hT : 'T' ∈ [digCh (y / 1000), digCh (y / 100), digCh (y / 10), digCh y,
      '-', digCh (mo / 10), digCh mo, '-', digCh (d / 10), digCh d, 'T',
      digCh (h / 10), digCh h, ':', digCh (mi / 10), digCh mi, ':',
      digCh (s / 10), digCh s, 'Z'] := by simp
  have hlast : [digCh (y / 1000), digCh (y / 100), digCh (y / 10), digCh y,
      '-', digCh (mo / 10), digCh mo, '-', digCh (d / 10), digCh d, 'T',
      digCh (h / 10), digCh h, ':', digCh (mi / 10), digCh mi, ':',
      digCh (s / 10), digCh s, 'Z'].getLast? = some 'Z' := by
    simp [List.getLast?]
  rw [if_pos hT, if_pos hlast]
  have hrep : pyReplaceZ [digCh (y / 1000), digCh (y / 100), digCh (y / 10),
      digCh y, '-', digCh (mo / 10), digCh mo, '-', digCh (d / 10), digCh d, 'T',
      digCh (h / 10), digCh h, ':', digCh (mi / 10), digCh mi, ':',
      digCh (s / 10), digCh s, 'Z'] =
      [digCh (y / 1000), digCh (y / 100), digCh (y / 10), digCh y, '-',
      digCh (mo / 10), digCh mo, '-', digCh (d / 10), digCh d, 'T',
      digCh (h / 10), digCh h, ':', digCh (mi / 10), digCh mi, ':',
      digCh (s / 10), digCh s, '+', '0', '0', ':', '0', '0'] := by
    simp [pyReplaceZ, digCh_ne_big_z]
  rw [hrep, fromiso_utc y mo d h mi s hv]
  obtain ⟨h1, h2, h3, h4, h5, h6, h7, h8, h9⟩ := hv
  have hd31 : d ≤ 31 := le_trans h6 (daysInMonth_le31 y mo)
  have hr := naive_in_range y mo d h mi s 0 h1 h2 h3 h4 h5 hd31 h7 h8 h9
    (by omega)
  simp only [Option.some_bind]
  unfold utcInstant
  simp only [naiveMicros]
  simp only [Option.getD_some, sub_zero]
  rw [if_pos hr]
  rfl


theorem pwt_canonOff (localOff : Int) (y mo d h mi s : Nat) (plus : Bool)
    (oh om : Nat) (hv : isoValid y mo d h mi s) (hoh : oh ≤ 23) (hom : om ≤ 59)
    (hlo : minInstant ≤ toMicros y mo d h mi s 0 -
      (if plus then (((oh * 3600 + om * 60) * 1000000 : Nat) : Int)
       else -(((oh * 3600 + om * 60) * 1000000 : Nat) : Int)))
    (hhi : toMicros y mo d h mi s 0 -
      (if plus then (((oh * 3600 + om * 60) * 1000000 : Nat) : Int)
       else -(((oh * 3600 + om * 60) * 1000000 : Nat) : Int)) ≤ maxInstant) :
    parse_webhook_timestamp localOff (isoCanonOff y mo d h mi s plus oh om) =
      toMicros y mo d h mi s 0 -
        (if plus then (((oh * 3600 + om * 60) * 1000000 : Nat) : Int)
         else -(((oh * 3600 + om * 60) * 1000000 : Nat) : Int)) := by
  have hvc := hv
  obtain ⟨hv1, hv2, hv3, hv4, hv5, hv6, hv7, hv8, hv9⟩ := hvc
  cases plus
  case false =>
    show parse_webhook_timestamp localOff (String.mk
      [digCh (y / 1000), digCh (y / 100), digCh (y / 10), digCh y, '-',
       digCh (mo / 10), digCh mo, '-', digCh (d / 10), digCh d, 'T',
       digCh (h / 10), digCh h, ':', digCh (mi / 10), digCh mi, ':',
       digCh (s / 10), digCh s, '-', digCh (oh / 10), digCh oh, ':',
       digCh (om / 10), digCh om]) = _
    unfold parse_webhook_timestamp pwtTry
    dsimp only
    have hT : 'T' ∈ [digCh (y / 1000), digCh (y / 100), digCh (y / 10), digCh y,
        '-', digCh (mo / 10), digCh mo, '-', digCh (d / 10), digCh d, 'T',
        digCh (h / 10), digCh h, ':', digCh (mi / 10), digCh mi, ':',
        digCh (s / 10), digCh s, '-', digCh (oh / 10), digCh oh, ':',
        digCh (om / 10), digCh om] := by simp
    have hlast : [digCh (y / 1000), digCh (y / 100), digCh (y / 10), digCh y,
        '-', digCh (mo / 10), digCh mo, '-', digCh (d / 10), digCh d, 'T',
        digCh (h / 10), digCh h, ':', digCh (mi / 10), digCh mi, ':',
        digCh (s / 10), digCh s, '-', digCh (oh / 10), digCh oh, ':',
        digCh (om / 10), digCh om].getLast? = some (digCh om) := by
      simp [List.getLast?]
    have hlidx : lastIdxOf [digCh (y / 1000), digCh (y / 100), digCh (y / 10),
        digCh y, '-', digCh (mo / 10), digCh mo, '-', digCh (d / 10), digCh d,
        'T', digCh (h / 10), digCh h, ':', digCh (mi / 10), digCh mi, ':',
        digCh (s / 10), digCh s, '-', digCh (oh / 10), digCh oh, ':',
        digCh (om / 10), digCh om] '-' = some 19 := by
      simp [lastIdxOf, digCh_ne_minus]
    rw [if_pos hT, if_neg (by rw [hlast]; simp [digCh_ne_big_z]),
      if_pos (Or.inr ⟨by simp, by rw [hlidx]; norm_num⟩)]
    have hptm := parseIsoTime_minus h mi s oh om (by omega) (by omega)
      (by omega) hoh hom
    have hfi : fromiso [digCh (y / 1000), digCh (y / 100), digCh (y / 10),
        digCh y, '-', digCh (mo / 10), digCh mo, '-', digCh (d / 10), digCh d,
        'T', digCh (h / 10), digCh h, ':', digCh (mi / 10), digCh mi, ':',
        digCh (s / 10), digCh s, '-', digCh (oh / 10), digCh oh, ':',
        digCh (om / 10), digCh om] =
        some ⟨y, mo, d, h, mi, s, 0,
          some (-(((oh * 3600 + om * 60) * 1000000 : Nat) : Int))⟩ := by
      have := fromiso_offTail y mo d h mi s '-'
        [digCh (oh / 10), digCh oh, ':', digCh (om / 10), digCh om]
        (h, mi, s, 0, some (-(((oh * 3600 + om * 60) * 1000000 : Nat) : Int)))
        hv ⟨rfl, rfl, rfl, rfl⟩ (by simpa using hptm)
      simpa using this
    rw [if_neg Bool.false_ne_true] at hlo hhi ⊢
    rw [hfi]
    simp only [Option.some_bind]
    unfold utcInstant
    simp only [naiveMicros]
    simp only [Option.getD_some]
    rw [if_pos ⟨hlo, hhi⟩]
    rfl
  case true =>
    show parse_webhook_timestamp localOff (String.mk
      [digCh (y / 1000), digCh (y / 100), digCh (y / 10), digCh y, '-',
       digCh (mo / 10), digCh mo, '-', digCh (d / 10), digCh d, 'T',
       digCh (h / 10), digCh h, ':', digCh (mi / 10), digCh mi, ':',
       digCh (s / 10), digCh s, '+', digCh (oh / 10), digCh oh, ':',
       digCh (om / 10), digCh om]) = _
    unfold parse_webhook_timestamp pwtTry
    dsimp only
    have hT : 'T' ∈ [digCh (y / 1000), digCh (y / 100), digCh (y / 10), digCh y,
        '-', digCh (mo / 10), digCh mo, '-', digCh (d / 10), digCh d, 'T',
        digCh (h / 10), digCh h, ':', digCh (mi / 10), digCh mi, ':',
        digCh (s / 10), digCh s, '+', digCh (oh / 10), digCh oh, ':',
        digCh (om / 10), digCh om] := by simp
    have hlast : [digCh (y / 1000), digCh (y / 100), digCh (y / 10), digCh y,
        '-', digCh (mo / 10), digCh mo, '-', digCh (d / 10), digCh d, 'T',
        digCh (h / 10), digCh h, ':', digCh (mi / 10), digCh mi, ':',
        digCh (s / 10), digCh s, '+', digCh (oh / 10), digCh oh, ':',
        digCh (om / 10), digCh om].getLast? = some (digCh om) := by
      simp [List.getLast?]
    rw [if_pos hT, if_neg (by rw [hlast]; simp [digCh_ne_big_z]),
      if_pos (Or.inl (by simp))]
    have hptp := parseIsoTime_plus h mi s oh om (by omega) (by omega)
      (by omega) hoh hom
    have hfi : fromiso [digCh (y / 1000), digCh (y / 100), digCh (y / 10),
        digCh y, '-', digCh (mo / 10), digCh mo, '-', digCh (d / 10), digCh d,
        'T', digCh (h / 10), digCh h, ':', digCh (mi / 10), digCh mi, ':',
        digCh (s / 10), digCh s, '+', digCh (oh / 10), digCh oh, ':',
        digCh (om / 10), digCh om] =
        some ⟨y, mo, d, h, mi, s, 0,
          some ((((oh * 3600 + om * 60) * 1000000 : Nat) : Int))⟩ := by
      have := fromiso_offTail y mo d h mi s '+'
        [digCh (oh / 10), digCh oh, ':', digCh (om / 10), digCh om]
        (h, mi, s, 0, some ((((oh * 3600 + om * 60) * 1000000 : Nat) : Int)))
        hv ⟨rfl, rfl, rfl, rfl⟩ (by simpa using hptp)
      simpa using this
    rw [if_pos rfl] at hlo hhi ⊢
    rw [hfi]
    simp only [Option.some_bind]
    unfold utcInstant
    simp only [naiveMicros]
    simp only [Option.getD_some]
    rw [if_pos ⟨hlo, hhi⟩]
    rfl


/-- Claim C6 (amended): for every valid ISO-8601 timestamp string
carrying an explicit UTC marker (Z) or an explicit numeric offset —
formalised as the canonical second-precision renderings isoCanonZ and
isoCanonOff over all valid civil fields and offsets — the timestamp
parser returns exactly the UTC instant the string denotes (its civil
fields read as a UTC instant, minus the signed explicit offset),
independently of the system local offset; for a nonzero offset this
requires the denoted instant to lie inside the representable datetime
range (years 1 to 9999), since outside it the conversion to utc
overflows and the sentinel is returned (see the counterexample). -/
theorem iso_marker_exact_utc (localOff : Int) (y mo d h mi s : Nat)
    (hv : isoValid y mo d h mi s) :
    parse_webhook_timestamp localOff (isoCanonZ y mo d h mi s) =
      toMicros y mo d h mi s 0 ∧
    ∀ (plus : Bool) (oh om : Nat), oh ≤ 23 → om ≤ 59 →
      minInstant ≤ toMicros y mo d h mi s 0 -
        (if plus then (((oh * 3600 + om * 60) * 1000000 : Nat) : Int)
         else -(((oh * 3600 + om * 60) * 1000000 : Nat) : Int)) →
      toMicros y mo d h mi s 0 -
        (if plus then (((oh * 3600 + om * 60) * 1000000 : Nat) : Int)
         else -(((oh * 3600 + om * 60) * 1000000 : Nat) : Int)) ≤ maxInstant →
      parse_webhook_timestamp localOff (isoCanonOff y mo d h mi s plus oh om) =
        toMicros y mo d h mi s 0 -
          (if plus then (((oh * 3600 + om * 60) * 1000000 : Nat) : Int)
           else -(((oh * 3600 + om * 60) * 1000000 : Nat) : Int)) :=
  ⟨pwt_canonZ localOff y mo d h mi s hv,
   fun plus oh om hoh hom hlo hhi =>
     pwt_canonOff localOff y mo d h mi s plus oh om hv hoh hom hlo hhi⟩

/-- Claim C6 (counterexample): the valid ISO string
0001-01-01T00:00:00+23:59 denotes an instant 23 hours 59 minutes before
the smallest representable datetime; the conversion to utc overflows,
the catch-all returns the year-2000 sentinel, and the parser does not
recover the denoted instant. -/
theorem iso_marker_exact_utc_counterexample :
    isoValid 1 1 1 0 0 0 ∧
    parse_webhook_timestamp 0 (isoCanonOff 1 1 1 0 0 0 true 23 59) =
      sentinel2000 ∧
    sentinel2000 ≠
      toMicros 1 1 1 0 0 0 0 - (((23 * 3600 + 59 * 60) * 1000000 : Nat) : Int) :=
  ⟨by unfold isoValid; decide, by rfl, by decide⟩

/-- Claim C6 (witness): the string 2024-06-15T12:34:56Z maps to its
instant and 2024-06-15T12:34:56-05:30 to that instant plus 5.5 hours,
both under a nonzero system local offset. -/
theorem iso_marker_exact_utc_witness :
    isoValid 2024 6 15 12 34 56 ∧
    parse_webhook_timestamp 77 (isoCanonZ 2024 6 15 12 34 56) =
      toMicros 2024 6 15 12 34 56 0 ∧
    parse_webhook_timestamp 77 (isoCanonOff 2024 6 15 12 34 56 false 5 30) =
      toMicros 2024 6 15 12 34 56 0 -
        (if false then (((5 * 3600 + 30 * 60) * 1000000 : Nat) : Int)
         else -(((5 * 3600 + 30 * 60) * 1000000 : Nat) : Int)) :=
  ⟨by unfold isoValid; decide,
   (iso_marker_exact_utc 77 2024 6 15 12 34 56 (by unfold isoValid; decide)).1,
   (iso_marker_exact_utc 77 2024 6 15 12 34 56 (by unfold isoValid; decide)).2
     false 5 30 (by decide) (by decide) (by decide) (by decide)⟩


end WebhookPrinter
